import Mathlib

/-!
# Verification development for `gulpfile.js`

The file embeds the build description of the repository:

* the task trees built with `gulp.series` / `gulp.parallel` (`build`, the
  default export, the chains registered by `watch`);
* the file-level behaviour of the tasks (`gulp.src` globs, the renames,
  `gulp.dest`);
* the table of names bound in the module and the names used by each task.
-/

namespace Gulpfile

/-! ## Task trees -/

/-- The task functions declared in `gulpfile.js`. -/
inductive TaskName
  | clean | styles | purge | scripts | copyScripts | html
  | copyImages | optimizeImages | copyFonts | serve | watch | reload
  deriving DecidableEq, Repr

/-- A task: a task function, `gulp.series(...)` or `gulp.parallel(...)`. -/
inductive Task where
  | leaf (t : TaskName)
  | series (cs : List Task)
  | parallel (cs : List Task)
  deriving Repr

mutual
/-- The task functions occurring in a task tree, left to right. -/
def Task.leaves : Task → List TaskName
  | .leaf t => [t]
  | .series cs => leavesList cs
  | .parallel cs => leavesList cs
/-- The task functions occurring in a list of task trees. -/
def leavesList : List Task → List TaskName
  | [] => []
  | c :: cs => c.leaves ++ leavesList cs
end

/-- The children of a composition node (none for a task function). -/
def Task.children : Task → List Task
  | .leaf _ => []
  | .series cs => cs
  | .parallel cs => cs

/-- `isProduction ? optimizeImages : copyImages` (lines 200 and 219). -/
def imageTask (isProduction : Bool) : TaskName :=
  if isProduction then .optimizeImages else .copyImages

/-- `const build = gulp.series(clean, styles, purge, gulp.parallel(...))`,
lines 212-223. -/
def build (isProduction : Bool) : Task :=
  .series [
    .leaf .clean,
    .leaf .styles,
    .leaf .purge,
    .parallel [
      .leaf .scripts,
      .leaf .html,
      .leaf (imageTask isProduction),
      .leaf .copyScripts,
      .leaf .copyFonts]]

/-- `export default gulp.series(...)`, lines 226-238.  The body does not read
`isProduction`: the image task is written `copyImages`. -/
def defaultTask : Task :=
  .series [
    .leaf .clean,
    .leaf .styles,
    .leaf .purge,
    .parallel [
      .leaf .scripts,
      .leaf .html,
      .leaf .copyImages,
      .leaf .copyScripts,
      .leaf .copyFonts],
    .parallel [.leaf .serve, .leaf .watch]]

/-- `paths.watch.scss` -/
def paths.watch.scss : String := "src/scss/**/*.scss"
/-- `paths.watch.js` -/
def paths.watch.js : String := "src/scripts/**/*.js"
/-- `paths.watch.html` -/
def paths.watch.html : String := "src/**/*.html"
/-- `paths.watch.images` -/
def paths.watch.images : String := "src/img/**/*.\x7bjpg,jpeg,png,gif,svg,webp\x7d"
/-- `paths.watch.fonts` -/
def paths.watch.fonts : String := "src/fonts/**/*"

/-- The values of the object `paths.watch`, lines 36-42. -/
def paths.watchPatterns : List String :=
  [paths.watch.scss, paths.watch.js, paths.watch.html, paths.watch.images, paths.watch.fonts]

/-- The bindings registered by `watch`, lines 196-202: each call
`gulp.watch(pattern, task)` is one pair. -/
def watch (isProduction : Bool) : List (String × Task) :=
  [ (paths.watch.scss, .series [.leaf .styles, .leaf .purge, .leaf .reload]),
    (paths.watch.js, .series [.leaf .scripts, .leaf .copyScripts, .leaf .reload]),
    (paths.watch.html, .series [.leaf .html, .leaf .reload]),
    (paths.watch.images, .series [.leaf (imageTask isProduction), .leaf .reload]),
    (paths.watch.fonts, .series [.leaf .copyFonts, .leaf .reload]) ]

/-- Every `gulp.series` chain of the file: `build`, the default export and the
chains bound by `watch`. -/
def chains (isProduction : Bool) : List Task :=
  build isProduction :: defaultTask :: (watch isProduction).map Prod.snd

/-! ## Execution of a task tree -/

mutual
/-- Modelled from the spec: the composition engine behind `gulp.series` and
`gulp.parallel` is not in the source file.  Following section 4.2, a task
function settles with the outcome `ok t`; a Sequential node runs its children
in order and stops at the first failure; a Concurrent node starts every child
and succeeds only if all of them do.  The result is the outcome and the
call-order log of the task functions that were started. -/
def run (ok : TaskName → Bool) : Task → Bool × List TaskName
  | .leaf t => (ok t, [t])
  | .series cs => runSeries ok cs
  | .parallel cs => runParallel ok cs
/-- Modelled from the spec: Sequential execution (section 4.2), the engine
being absent from the source file: children in declared order, the rest is
not started after a failure. -/
def runSeries (ok : TaskName → Bool) : List Task → Bool × List TaskName
  | [] => (true, [])
  | c :: cs =>
    let r := run ok c
    if r.1 then
      let rest := runSeries ok cs
      (rest.1, r.2 ++ rest.2)
    else (false, r.2)
/-- Modelled from the spec: Concurrent execution (section 4.2), the engine
being absent from the source file: every child is started, the node fails if
a child fails. -/
def runParallel (ok : TaskName → Bool) : List Task → Bool × List TaskName
  | [] => (true, [])
  | c :: cs =>
    let r := run ok c
    let rest := runParallel ok cs
    (r.1 && rest.1, r.2 ++ rest.2)
end

/-! ## Strings, paths and files -/

/-- A JavaScript string, as its sequence of characters. -/
abbrev Str := List Char

/-- A path, as its list of segments (`src/scripts/a.js` is
`[src, scripts, a.js]`), relative to the project root. -/
abbrev Path := List Str

/-- File contents. -/
abbrev Contents := List Nat

/-- A regular file of the source tree. -/
structure SrcFile where
  path : Path
  contents : Contents
  deriving DecidableEq, Repr

/-- A file travelling through a gulp stream: `file.base`, `file.relative`,
`file.contents`. -/
structure Vinyl where
  base : Path
  relative : Path
  contents : Contents
  deriving DecidableEq, Repr

/-- A file written by `gulp.dest`. -/
structure Written where
  path : Path
  contents : Contents
  deriving DecidableEq, Repr

/-- The paths of a list of written files. -/
def outPaths (ws : List Written) : List Path := ws.map Written.path

/-- `paths.src.scss` -/
def paths.src.scss : String := "src/scss/**/*.scss"
/-- `paths.src.js` -/
def paths.src.js : String := "src/scripts/**/*.js"
/-- `paths.src.html` -/
def paths.src.html : String := "src/**/*.html"
/-- `paths.src.images` -/
def paths.src.images : String := "src/img/**/*.\x7bjpg,jpeg,png,gif,svg,webp\x7d"
/-- `paths.src.fonts` -/
def paths.src.fonts : String := "src/fonts/**/*"
/-- `paths.build.css` -/
def paths.build.css : String := "dist/css/"
/-- `paths.build.js` -/
def paths.build.js : String := "dist/scripts/"
/-- `paths.build.html` -/
def paths.build.html : String := "dist/"
/-- `paths.build.images` -/
def paths.build.images : String := "dist/img/"
/-- `paths.build.fonts` -/
def paths.build.fonts : String := "dist/fonts/"

/-! ## Globs (`gulp.src`) -/

/-- One token of a glob segment: a literal character, `*`, or a brace list
`{a,b,c}`. -/
inductive Tok where
  | char (c : Char)
  | star
  | alt (alts : List Str)
  deriving DecidableEq, Repr

/-- One segment of a glob: a segment pattern or `**`. -/
inductive Part where
  | seg (p : List Tok)
  | globstar
  deriving DecidableEq, Repr

/-- A parsed glob. -/
abbrev Glob := List Part

/-- State of the segment tokenizer, reading right to left: the tokens read so
far and the alternatives of the brace list being read, if any. -/
structure TokState where
  toks : List Tok
  brace : Option (List Str)

/-- One step of the segment tokenizer (right to left). -/
def tokStep (c : Char) (st : TokState) : TokState :=
  match st.brace with
  | some alts =>
    if c = '{' then ⟨.alt alts :: st.toks, none⟩
    else if c = ',' then ⟨st.toks, some ([] :: alts)⟩
    else
      match alts with
      | [] => ⟨st.toks, some [[c]]⟩
      | a :: rest => ⟨st.toks, some ((c :: a) :: rest)⟩
  | none =>
    if c = '}' then ⟨st.toks, some [[]]⟩
    else if c = '*' then ⟨.star :: st.toks, none⟩
    else ⟨.char c :: st.toks, none⟩

/-- The tokens of one glob segment. -/
def tokenize (s : Str) : List Tok := (s.foldr tokStep ⟨[], none⟩).toks

/-- A glob string split at `/`, each segment tokenized, `**` being the
globstar. -/
def parseGlob (s : Str) : Glob :=
  (s.splitOn '/').map fun seg => if seg = "**".toList then .globstar else .seg (tokenize seg)

/-- A segment that wildcards may match under the default `dot: false` of
`gulp.src`: non-empty and not starting with a dot. -/
def visible : Str → Bool
  | [] => false
  | c :: _ => c != '.'

/-- Match of the tokens of a segment pattern against a segment. -/
def matchToks : List Tok → Str → Bool
  | [], t => t.isEmpty
  | .char c :: p, t =>
    match t with
    | [] => false
    | x :: rest => x == c && matchToks p rest
  | .star :: p, t => t.tails.any (matchToks p)
  | .alt alts :: p, t => alts.any fun a => a.isPrefixOf t && matchToks p (t.drop a.length)

/-- Match of a segment pattern against a segment: a segment starting with a
dot is matched only by a pattern that starts with a literal dot. -/
def segMatch (p : List Tok) (s : Str) : Bool :=
  (visible s || p.head? == some (Tok.char '.')) && matchToks p s

/-- Match of a glob against a path: `**` stands for any number of visible
segments. -/
def globMatch : Glob → Path → Bool
  | [], path => path.isEmpty
  | .seg p :: g, path =>
    match path with
    | [] => false
    | s :: rest => segMatch p s && globMatch g rest
  | .globstar :: g, path =>
    (List.range (path.length + 1)).any fun n =>
      (path.take n).all visible && globMatch g (path.drop n)

/-- Whether a glob segment is literal text. -/
def Part.isLiteral : Part → Bool
  | .seg p => p.all fun t => match t with
    | .char _ => true
    | _ => false
  | .globstar => false

/-- The text of a literal glob segment. -/
def Part.literal : Part → Str
  | .seg p => p.filterMap fun t => match t with
    | .char c => some c
    | _ => none
  | .globstar => []

/-- The base of a glob (`glob-parent`): its leading literal segments, without
the last one when the whole glob is literal. -/
def globBase (g : Glob) : Path :=
  let ls := g.takeWhile Part.isLiteral
  (if ls.length = g.length then ls.dropLast else ls).map Part.literal

/-- Whether a glob string is a negation (`!...`). -/
def isNegated (g : String) : Bool := g.toList.head? == some '!'

/-- `gulp.src(globs)` on a source tree: the files matched by a positive glob
and by no negated glob, each with the base of the positive glob that matched
it. -/
def gulpSrc (globs : List String) (tree : List SrcFile) : List Vinyl :=
  let positives := (globs.filter fun g => !isNegated g).map fun g => parseGlob g.toList
  let negatives := (globs.filter isNegated).map fun g => parseGlob (g.toList.drop 1)
  tree.filterMap fun f =>
    match positives.find? (fun g => globMatch g f.path) with
    | none => none
    | some g =>
      if negatives.any (fun n => globMatch n f.path) then none
      else some ⟨globBase g, f.path.drop (globBase g).length, f.contents⟩

/-- The segments of a directory string such as `dist/scripts/`. -/
def dirSegments (dir : String) : Path := (dir.toList.splitOn '/').filter fun s => s != []

/-- `gulp.dest(dir)`: the file is written at `dir` joined with
`file.relative`. -/
def gulpDest (dir : String) (f : Vinyl) : Written :=
  ⟨dirSegments dir ++ f.relative, f.contents⟩

/-! ## `gulp-rename` -/

/-- The object handed to a `gulp-rename` callback. -/
structure ParsedPath where
  dirname : Path
  basename : Str
  extname : Str
  deriving DecidableEq, Repr

/-- Node's `path.extname` on a file name: from the last dot to the end; empty
when there is no dot, when the last dot is the first character, and for
`..`. -/
def extname (name : Str) : Str :=
  match name.reverse.dropWhile (fun c => c != '.') with
  | [] => []
  | _ :: before =>
    if before = [] then []
    else if name = ['.', '.'] then []
    else '.' :: (name.reverse.takeWhile (fun c => c != '.')).reverse

/-- `parsePath(file.relative)` of `gulp-rename`: `dirname`, `extname` of the
file name, and `basename`, the file name without its `extname`. -/
def parsePath (rel : Path) : ParsedPath :=
  let name := rel.getLast?.getD []
  let e := extname name
  ⟨rel.dropLast, name.take (name.length - e.length), e⟩

/-- `rename(fn)`: the callback edits the parsed path; the new relative path is
`join(dirname, basename + extname)`. -/
def renameWith (fn : ParsedPath → ParsedPath) (f : Vinyl) : Vinyl :=
  let p := fn (parsePath f.relative)
  { f with relative := p.dirname ++ [p.basename ++ p.extname] }

/-- `rename({ suffix })` on a relative path: the new relative path is
`join(dirname, basename + suffix + extname)`. -/
def suffixPath (suffix : String) (rel : Path) : Path :=
  let p := parsePath rel
  p.dirname ++ [p.basename ++ suffix.toList ++ p.extname]

/-! ## The tasks on files -/

/-- `basename.replace(/\.min$/, '')`, line 111: a trailing `.min` is
removed. -/
def replaceTrailingMin (basename : Str) : Str :=
  if ".min".toList.isSuffixOf basename then basename.take (basename.length - 4) else basename

/-- The callback given to `rename` in `scripts`, lines 109-114. -/
def scriptsRename (filePath : ParsedPath) : ParsedPath :=
  if filePath.extname = ".js".toList then
    { filePath with basename := replaceTrailingMin filePath.basename ++ ".min".toList }
  else filePath

/-- The task `scripts`, lines 105-116.  `uglify` is the minifier of the plugin
on the contents of one file; it yields nothing when the file does not parse.
Under `plumber()` such an error does not break the pipe: the file is left out
and the other files pass. -/
def scripts (uglify : Contents → Option Contents) (tree : List SrcFile) : List Written :=
  (((gulpSrc [paths.src.js] tree).filterMap fun f =>
      (uglify f.contents).map fun c => { f with contents := c }).map
    (renameWith scriptsRename)).map (gulpDest paths.build.js)

/-- The task `copyScripts`, lines 119-129. -/
def copyScripts (tree : List SrcFile) : List Written :=
  (gulpSrc ["src/scripts/**/*", "!src/scripts/script.min.js", "!src/scripts/**/script.js"]
    tree).map (gulpDest paths.build.js)

/-- The task `html`, lines 132-136.  `posthtml` is the content transform of
the plugin. -/
def html (posthtml : Contents → Contents) (tree : List SrcFile) : List Written :=
  ((gulpSrc [paths.src.html] tree).map fun f => { f with contents := posthtml f.contents }).map
    (gulpDest paths.build.html)

/-- The task `copyImages`, lines 139-142. -/
def copyImages (tree : List SrcFile) : List Written :=
  (gulpSrc [paths.src.images] tree).map (gulpDest paths.build.images)

/-- The task `optimizeImages`, lines 145-176.  `imagemin` is the content
transform of the plugin. -/
def optimizeImages (imagemin : Contents → Contents) (tree : List SrcFile) : List Written :=
  ((gulpSrc [paths.src.images] tree).map fun f => { f with contents := imagemin f.contents }).map
    (gulpDest paths.build.images)

/-- The task `copyFonts`, lines 179-182. -/
def copyFonts (tree : List SrcFile) : List Written :=
  (gulpSrc [paths.src.fonts] tree).map (gulpDest paths.build.fonts)

/-- The image task of the Concurrent group of `build` on files:
`isProduction ? optimizeImages : copyImages`. -/
def imageTaskFiles (isProduction : Bool) (imagemin : Contents → Contents)
    (tree : List SrcFile) : List Written :=
  if isProduction then optimizeImages imagemin tree else copyImages tree

/-- What `styles` writes: a stylesheet, or a sourcemap file. -/
inductive StyleWrite where
  | css (path : Path)
  | map (path : Path)
  deriving DecidableEq, Repr

/-- The kind of a file in the stream of `styles`. -/
inductive StyleKind where
  | css
  | map
  deriving DecidableEq, Repr

/-- A file in the stream of `styles` after the compile step: its relative
path and its kind (contents are not followed). -/
structure StyleFile where
  relative : Path
  kind : StyleKind
  deriving DecidableEq, Repr

/-- Whether a file is a Sass partial: its name starts with an underscore. -/
def isPartial (path : Path) : Bool :=
  match path.getLast? with
  | some ('_' :: _) => true
  | _ => false

/-- `replaceExt(path, ext)` of the Sass plugin: the file name without its
`extname`, followed by `ext`. -/
def replaceExt (rel : Path) (ext : String) : Path :=
  let p := parsePath rel
  p.dirname ++ [p.basename ++ ext.toList]

/-- The stream after `.pipe(sass().on('error', sass.logError))`, line 54.
`compile` is the Sass compiler on one file and yields nothing on a compile
error.  A partial is left out of the stream; a compiled file goes on with the
extension `.css`; at the first compile error `sass.logError` ends the stream,
so the files after it are not emitted. -/
def sassStream (compile : Vinyl → Option Contents) : List Vinyl → List Vinyl
  | [] => []
  | v :: vs =>
    if isPartial v.relative then sassStream compile vs
    else
      match compile v with
      | some css =>
        { v with relative := replaceExt v.relative ".css", contents := css } ::
          sassStream compile vs
      | none => []

/-- The files that `gulp.dest(dir, { sourcemaps })` writes and passes on for one
file of the stream: the file, and with `sourcemaps: '.'` the map `<name>.map`
of a stylesheet next to it; a map file carries no source map of its own. -/
def destStyles (sourcemaps : Bool) (f : StyleFile) : List StyleFile :=
  match f.kind with
  | .css =>
    if sourcemaps then
      [f, ⟨f.relative.dropLast ++ [f.relative.getLast?.getD [] ++ ".map".toList], .map⟩]
    else [f]
  | .map => [f]

/-- The write of one file of the stream under `dir`. -/
def styleWrite (dir : String) (f : StyleFile) : StyleWrite :=
  match f.kind with
  | .css => .css (dirSegments dir ++ f.relative)
  | .map => .map (dirSegments dir ++ f.relative)

/-- The writes of `styles` for one compiled file, lines 56-59: the first
`gulp.dest`, then `rename({ suffix: '.min' })` on everything it passed on and
the second `gulp.dest`.  `postcss` and `csso` rewrite contents only. -/
def stylesOfCompiled (isProduction : Bool) (c : Vinyl) : List StyleWrite :=
  let first := destStyles (!isProduction) ⟨c.relative, .css⟩
  let renamed := first.map fun g => { g with relative := suffixPath ".min" g.relative }
  let second := (renamed.map (destStyles (!isProduction))).flatten
  (first ++ second).map (styleWrite paths.build.css)

/-- The paths written by the task `styles`, lines 51-60, the sources being
read in the order of the tree. -/
def styles (isProduction : Bool) (compile : Vinyl → Option Contents) (tree : List SrcFile) :
    List StyleWrite :=
  ((sassStream compile (gulpSrc [paths.src.scss] tree)).map
    (stylesOfCompiled isProduction)).flatten

/-- The stylesheet paths among the writes of `styles`. -/
def cssPaths (ws : List StyleWrite) : List Path :=
  ws.filterMap fun w => match w with
    | .css p => some p
    | .map _ => none

/-! ## Names bound in the module -/

/-- The names bound by the import declarations, lines 1-13. -/
def importedNames : List String :=
  ["gulp", "plumber", "sass", "postcss", "autoprefixer", "csso", "rename", "uglify",
    "browserSync", "posthtml", "include", "del", "purgecss"]

/-- The names bound by the top-level `const` declarations. -/
def declaredNames : List String :=
  ["server", "paths", "clean", "isProduction", "styles", "purge", "scripts", "copyScripts",
    "html", "copyImages", "optimizeImages", "copyFonts", "serve", "watch", "reload", "build"]

/-- The names bound in the module scope. -/
def boundNames : List String := importedNames ++ declaredNames

/-- The free names used in the body of each task function (parameters such as
`done` and `filePath` are bound by the function itself). -/
def usedNames : TaskName → List String
  | .clean => ["del"]
  | .styles =>
    ["gulp", "paths", "isProduction", "plumber", "sass", "postcss", "autoprefixer", "rename",
      "csso"]
  | .purge => ["isProduction", "gulp", "paths", "plumber", "purgecss"]
  | .scripts => ["gulp", "paths", "plumber", "uglify", "rename"]
  | .copyScripts => ["gulp", "paths"]
  | .html => ["gulp", "paths", "posthtml", "include"]
  | .copyImages => ["gulp", "paths"]
  | .optimizeImages =>
    ["gulp", "paths", "plumber", "imagemin", "imageminMozjpeg", "imageminPngquant",
      "imageminSvgo", "imageminWebp"]
  | .copyFonts => ["gulp", "paths"]
  | .serve => ["server"]
  | .watch =>
    ["gulp", "paths", "styles", "purge", "reload", "scripts", "copyScripts", "html",
      "isProduction", "optimizeImages", "copyImages", "copyFonts"]
  | .reload => ["server"]

/-- The task functions that can run when `build` or the default export is
invoked: those of the two trees and, through `watch`, those of the chains it
binds. -/
def reachable (isProduction : Bool) : List TaskName :=
  (build isProduction).leaves ++ defaultTask.leaves ++
    ((watch isProduction).map fun b => b.2.leaves).flatten

/-- The children of the first Concurrent node of a pipeline. -/
def concurrentGroup (t : Task) : List Task :=
  match t.children.find? (fun c => match c with
    | .parallel _ => true
    | _ => false) with
  | some c => c.children
  | none => []

/-- No task function of a later child occurs in an earlier child. -/
def SeparatedChildren (cs : List Task) : Prop :=
  ∀ k < cs.length, ∀ t ∈ leavesList (cs.drop (k + 1)), t ∉ leavesList (cs.take (k + 1))

instance (cs : List Task) : Decidable (SeparatedChildren cs) := by
  unfold SeparatedChildren; infer_instance

/-! ## Conditions on a source tree -/

/-- No file under `src/scripts` other than `src/scripts/script.min.js` has a
name ending in `.min.js`. -/
def NoCopiedMinJs (tree : List SrcFile) : Prop :=
  ∀ f ∈ tree, f.path.take 2 = ["src".toList, "scripts".toList] →
    ".min.js".toList <:+ f.path.getLast?.getD [] →
    f.path = ["src".toList, "scripts".toList, "script.min.js".toList]

instance (tree : List SrcFile) : Decidable (NoCopiedMinJs tree) := by
  unfold NoCopiedMinJs; infer_instance

/-- No file under `src/scripts` or `src/fonts` has a name ending in
`.html`. -/
def NoHtmlAmongCopies (tree : List SrcFile) : Prop :=
  ∀ f ∈ tree,
    (f.path.take 2 = ["src".toList, "scripts".toList]
      ∨ f.path.take 2 = ["src".toList, "fonts".toList]) →
    ¬ ".html".toList <:+ f.path.getLast?.getD []

instance (tree : List SrcFile) : Decidable (NoHtmlAmongCopies tree) := by
  unfold NoHtmlAmongCopies; infer_instance

/-- A small source tree: two scripts, a page, an image and a font. -/
def sampleTree : List SrcFile :=
  [⟨["src".toList, "scripts".toList, "app.js".toList], [1]⟩,
    ⟨["src".toList, "scripts".toList, "script.js".toList], [2]⟩,
    ⟨["src".toList, "index.html".toList], [3]⟩,
    ⟨["src".toList, "img".toList, "logo.png".toList], [4]⟩,
    ⟨["src".toList, "fonts".toList, "text.woff".toList], [5]⟩]

/-! ## Theorems -/

/-! ### Shape of the pipelines -/

/-- C1: the build pipeline is the tree
`Sequential(clean, styles, purge, Concurrent(scripts, html, image task,
copyScripts, copyFonts))`: four children in that order, the last one a
Concurrent node with exactly those five children, the image task being
`optimizeImages` or `copyImages`. -/
theorem build_shape (isProduction : Bool) :
    build isProduction =
      Task.series [.leaf .clean, .leaf .styles, .leaf .purge,
        .parallel [.leaf .scripts, .leaf .html, .leaf (imageTask isProduction),
          .leaf .copyScripts, .leaf .copyFonts]]
    ∧ (build isProduction).children.length = 4
    ∧ ((build isProduction).children.getLast?.map Task.children).map List.length = some 5
    ∧ (imageTask isProduction = .optimizeImages ∨ imageTask isProduction = .copyImages) := by
  cases isProduction <;> simp [build, Task.children, imageTask]

/-! ### Execution -/

mutual
theorem run_log_subset (ok : TaskName → Bool) :
    ∀ t : Task, ∀ x ∈ (run ok t).2, x ∈ t.leaves
  | .leaf t => by simp [run, Task.leaves]
  | .series cs => by simpa [run, Task.leaves] using runSeries_log_subset ok cs
  | .parallel cs => by simpa [run, Task.leaves] using runParallel_log_subset ok cs
theorem runSeries_log_subset (ok : TaskName → Bool) :
    ∀ cs : List Task, ∀ x ∈ (runSeries ok cs).2, x ∈ leavesList cs
  | [] => by simp [runSeries]
  | c :: cs => by
    intro x hx
    have h1 := run_log_subset ok c
    have h2 := runSeries_log_subset ok cs
    simp only [runSeries] at hx
    simp only [leavesList, List.mem_append]
    split at hx
    · simp only [List.mem_append] at hx
      rcases hx with hx | hx
      · exact Or.inl (h1 x hx)
      · exact Or.inr (h2 x hx)
    · exact Or.inl (h1 x hx)
theorem runParallel_log_subset (ok : TaskName → Bool) :
    ∀ cs : List Task, ∀ x ∈ (runParallel ok cs).2, x ∈ leavesList cs
  | [] => by simp [runParallel]
  | c :: cs => by
    intro x hx
    have h1 := run_log_subset ok c
    have h2 := runParallel_log_subset ok cs
    simp only [runParallel, List.mem_append] at hx
    simp only [leavesList, List.mem_append]
    rcases hx with hx | hx
    · exact Or.inl (h1 x hx)
    · exact Or.inr (h2 x hx)
end

theorem runSeries_fail (ok : TaskName → Bool) :
    ∀ (cs : List Task) (k : Nat) (hk : k < cs.length),
      (run ok cs[k]).1 = false → (runSeries ok cs).1 = false
  | [], k, hk, _ => by simp at hk
  | c :: cs, 0, _, h => by
    simp only [List.getElem_cons_zero] at h
    simp [runSeries, h]
  | c :: cs, k + 1, hk, h => by
    simp only [List.getElem_cons_succ] at h
    have ih := runSeries_fail ok cs k (by simpa using hk) h
    simp only [runSeries]
    split
    · exact ih
    · rfl

theorem runSeries_log_upto (ok : TaskName → Bool) :
    ∀ (cs : List Task) (k : Nat) (hk : k < cs.length),
      (run ok cs[k]).1 = false →
      ∀ x ∈ (runSeries ok cs).2, x ∈ leavesList (cs.take (k + 1))
  | [], k, hk, _ => by simp at hk
  | c :: cs, 0, _, h => by
    intro x hx
    simp only [List.getElem_cons_zero] at h
    simp only [runSeries, h] at hx
    simpa [leavesList] using run_log_subset ok c x hx
  | c :: cs, k + 1, hk, h => by
    intro x hx
    simp only [List.getElem_cons_succ] at h
    have ih := runSeries_log_upto ok cs k (by simpa using hk) h
    simp only [runSeries] at hx
    simp only [List.take_succ_cons, leavesList, List.mem_append]
    split at hx
    · simp only [List.mem_append] at hx
      rcases hx with hx | hx
      · exact Or.inl (run_log_subset ok c x hx)
      · exact Or.inr (ih x hx)
    · exact Or.inl (run_log_subset ok c x hx)

theorem chains_separated (isProduction : Bool) :
    ∀ cs, Task.series cs ∈ chains isProduction → SeparatedChildren cs := by
  intro cs hc
  cases isProduction <;>
    simp only [chains, build, defaultTask, watch, imageTask, List.map, List.mem_cons,
      Task.series.injEq, List.mem_nil_iff, or_false, Bool.false_eq_true, if_false, if_true] at hc <;>
    rcases hc with h | h | h | h | h | h | h <;> subst h <;> decide

/-- C4: in every Sequential chain of the file (build, the default export, the
five watch chains), for every assignment of success or failure to the task
functions, if child `k` fails then the chain fails and no task function of the
children after `k` is started; in a watch chain with a failing rebuild step
`reload` is not started; and a task of the Concurrent group of `build` is
started only if `clean`, `styles` and `purge` succeeded, in that order. -/
theorem series_abort_on_failure (isProduction : Bool) (ok : TaskName → Bool)
    (cs : List Task) (hc : Task.series cs ∈ chains isProduction)
    (k : Nat) (hk : k < cs.length) (hfail : (run ok cs[k]).1 = false) :
    (run ok (.series cs)).1 = false
    ∧ (∀ t ∈ leavesList (cs.drop (k + 1)), t ∉ (run ok (.series cs)).2)
    ∧ (∀ b ∈ watch isProduction,
        (∃ t ∈ b.2.leaves, t ≠ TaskName.reload ∧ ok t = false) →
          TaskName.reload ∉ (run ok b.2).2)
    ∧ (∀ t ∈ [TaskName.scripts, .html, imageTask isProduction, .copyScripts, .copyFonts],
        t ∈ (run ok (build isProduction)).2 →
          ok .clean = true ∧ ok .styles = true ∧ ok .purge = true
          ∧ [TaskName.clean, .styles, .purge] <+: (run ok (build isProduction)).2) := by
  refine ⟨?_, ?_, ?_, ?_⟩
  · simpa [run] using runSeries_fail ok cs k hk hfail
  · intro t ht hlog
    simp only [run] at hlog
    exact chains_separated isProduction cs hc k hk t ht (runSeries_log_upto ok cs k hk hfail t hlog)
  · intro b hb
    cases isProduction <;>
      simp only [watch, imageTask, List.mem_cons, List.mem_nil_iff, or_false,
        Bool.false_eq_true, if_false, if_true] at hb <;>
      rcases hb with h | h | h | h | h <;> subst h <;>
      simp only [Task.leaves, leavesList, run, runSeries, List.mem_cons, List.append_nil,
        List.cons_append, List.nil_append, List.mem_nil_iff, or_false, List.mem_singleton] <;>
      rintro ⟨t, ht, hne, hf⟩ <;>
      rcases ht with rfl | rfl | rfl <;>
      first
        | exact absurd rfl hne
        | (simp only [hf]; done)
        | (simp only [hf]; simp; done)
        | (simp only [hf]; split <;> simp)
  · intro t ht
    cases isProduction <;>
      simp only [imageTask, List.mem_cons, List.mem_nil_iff, or_false,
        Bool.false_eq_true, if_false, if_true] at ht <;>
      rcases ht with rfl | rfl | rfl | rfl | rfl <;>
      simp only [build, imageTask, run, runSeries, runParallel, Bool.false_eq_true,
        if_false, if_true] <;>
      cases h1 : ok .clean <;> cases h2 : ok .styles <;> cases h3 : ok .purge <;>
      simp

/-- The development-mode `build` with a failing `styles`: the chain fails and
neither `purge` nor a task of the Concurrent group is started. -/
theorem series_abort_on_failure_witness :
    (run (fun t => t != TaskName.styles) (Task.leaf .styles)).1 = false
    ∧ (run (fun t => t != TaskName.styles) (build false)).1 = false
    ∧ (∀ t ∈ [TaskName.purge, .scripts, .html, .copyImages, .copyScripts, .copyFonts],
        t ∉ (run (fun t => t != TaskName.styles) (build false)).2) := by
  have h := series_abort_on_failure false (fun t => t != TaskName.styles)
    [.leaf .clean, .leaf .styles, .leaf .purge,
      .parallel [.leaf .scripts, .leaf .html, .leaf (imageTask false),
        .leaf .copyScripts, .leaf .copyFonts]]
    (by simp [chains, build]) 1 (by decide) (by decide)
  exact ⟨by decide, h.1, by simpa [leavesList, Task.leaves, imageTask] using h.2.1⟩

/-- C3: `watch` registers exactly one binding for each of the five patterns of
`paths.watch` (scss, js, html, images, fonts), and every binding is bound to a
Sequential chain whose last child is `reload`, `reload` occurring nowhere else
in the chain. -/
theorem watch_chains_end_in_reload (isProduction : Bool) :
    (watch isProduction).map Prod.fst = paths.watchPatterns
    ∧ paths.watchPatterns.Nodup
    ∧ paths.watchPatterns.length = 5
    ∧ ∀ b ∈ watch isProduction, ∃ cs : List Task,
        b.2 = Task.series (cs ++ [Task.leaf .reload])
        ∧ TaskName.reload ∉ leavesList cs := by
  refine ⟨by cases isProduction <;> rfl, by decide, by decide, ?_⟩
  intro b hb
  cases isProduction <;>
    simp only [watch, imageTask, List.mem_cons, List.mem_nil_iff, or_false,
      Bool.false_eq_true, if_false, if_true] at hb <;>
    rcases hb with h | h | h | h | h <;> subst h
  all_goals first
    | exact ⟨[.leaf .styles, .leaf .purge], rfl, by decide⟩
    | exact ⟨[.leaf .scripts, .leaf .copyScripts], rfl, by decide⟩
    | exact ⟨[.leaf .html], rfl, by decide⟩
    | exact ⟨[.leaf .copyImages], rfl, by decide⟩
    | exact ⟨[.leaf .optimizeImages], rfl, by decide⟩
    | exact ⟨[.leaf .copyFonts], rfl, by decide⟩

/-! ### Globs -/

theorem matchToks_lit (w s : Str) : matchToks (w.map Tok.char) s = true ↔ s = w := by
  induction w generalizing s with
  | nil => cases s <;> simp [matchToks]
  | cons c w ih =>
    cases s with
    | nil => simp [matchToks]
    | cons x rest => simp [matchToks, ih]

theorem matchToks_star_lit (w s : Str) :
    matchToks (Tok.star :: w.map Tok.char) s = true ↔ w <:+ s := by
  simp only [matchToks, List.any_eq_true, List.mem_tails, matchToks_lit]
  constructor
  · rintro ⟨t, ht, rfl⟩; exact ht
  · intro h; exact ⟨w, h, rfl⟩

theorem matchToks_star (s : Str) : matchToks [Tok.star] s = true := by
  simp only [matchToks, List.any_eq_true, List.mem_tails]
  exact ⟨[], List.nil_suffix, rfl⟩

theorem matchToks_star_dot_alt (alts : List Str) (s : Str) :
    matchToks [Tok.star, Tok.char '.', Tok.alt alts] s = true ↔
      ∃ a ∈ alts, ('.' :: a) <:+ s := by
  simp only [matchToks, List.any_eq_true, List.mem_tails]
  constructor
  · rintro ⟨t, ht, h⟩
    cases t with
    | nil => simp at h
    | cons x rest =>
      simp only [Bool.and_eq_true, beq_iff_eq, List.any_eq_true, List.isPrefixOf_iff_prefix,
        List.isEmpty_eq_true] at h
      obtain ⟨rfl, a, ha, hpre, hdrop⟩ := h
      refine ⟨a, ha, ?_⟩
      obtain ⟨r, rfl⟩ := hpre
      simp at hdrop
      subst hdrop
      simpa using ht
  · rintro ⟨a, ha, hs⟩
    refine ⟨'.' :: a, hs, ?_⟩
    simp only [Bool.and_eq_true, beq_iff_eq, List.any_eq_true, List.isPrefixOf_iff_prefix,
      List.isEmpty_eq_true, true_and]
    exact ⟨a, ha, List.prefix_refl a, by simp⟩

theorem globMatch_single (p : List Tok) (path : Path) :
    globMatch [Part.seg p] path = true ↔ ∃ s, path = [s] ∧ segMatch p s = true := by
  cases path with
  | nil => simp [globMatch]
  | cons s rest =>
    cases rest with
    | nil => simp [globMatch]
    | cons s2 r => simp [globMatch]

theorem globMatch_globstar_seg (p : List Tok) (path : Path) :
    globMatch [Part.globstar, Part.seg p] path = true ↔
      ∃ mid name, path = mid ++ [name] ∧ mid.all visible = true ∧ segMatch p name = true := by
  simp only [globMatch, List.any_eq_true, List.mem_range, Bool.and_eq_true]
  constructor
  · rintro ⟨n, _, hvis, hm⟩
    obtain ⟨s, hs, hseg⟩ := (globMatch_single p _).1 hm
    refine ⟨path.take n, s, ?_, hvis, hseg⟩
    rw [← hs, List.take_append_drop]
  · rintro ⟨mid, name, rfl, hvis, hseg⟩
    refine ⟨mid.length, by simp; omega, by simpa using hvis, ?_⟩
    rw [List.drop_left]
    exact (globMatch_single p _).2 ⟨name, rfl, hseg⟩

theorem segMatch_lit (w s : Str) (hw : visible w = true) :
    segMatch (w.map Tok.char) s = true ↔ s = w := by
  simp only [segMatch, Bool.and_eq_true, matchToks_lit]
  constructor
  · exact fun h => h.2
  · rintro rfl; simp [hw]

theorem globMatch_lit_cons (w : Str) (g : Glob) (path : Path) (hw : visible w = true) :
    globMatch (Part.seg (w.map Tok.char) :: g) path = true ↔
      ∃ rest, path = w :: rest ∧ globMatch g rest = true := by
  cases path with
  | nil => simp [globMatch]
  | cons s rest =>
    simp only [globMatch, Bool.and_eq_true, segMatch_lit w s hw, List.cons.injEq]
    constructor
    · rintro ⟨rfl, h⟩; exact ⟨rest, ⟨rfl, rfl⟩, h⟩
    · rintro ⟨r, ⟨rfl, rfl⟩, h⟩; exact ⟨rfl, h⟩
theorem segMatch_star (p : List Tok) (s : Str) :
    segMatch (Tok.star :: p) s = true ↔ visible s = true ∧ matchToks (Tok.star :: p) s = true := by
  simp [segMatch]

theorem parse_js :
    parseGlob paths.src.js.toList =
      [.seg ("src".toList.map Tok.char), .seg ("scripts".toList.map Tok.char), .globstar,
        .seg (Tok.star :: ".js".toList.map Tok.char)] := by decide

theorem parse_html :
    parseGlob paths.src.html.toList =
      [.seg ("src".toList.map Tok.char), .globstar,
        .seg (Tok.star :: ".html".toList.map Tok.char)] := by decide

theorem parse_scss :
    parseGlob paths.src.scss.toList =
      [.seg ("src".toList.map Tok.char), .seg ("scss".toList.map Tok.char), .globstar,
        .seg (Tok.star :: ".scss".toList.map Tok.char)] := by decide

theorem parse_fonts :
    parseGlob paths.src.fonts.toList =
      [.seg ("src".toList.map Tok.char), .seg ("fonts".toList.map Tok.char), .globstar,
        .seg [Tok.star]] := by decide

theorem parse_images :
    parseGlob paths.src.images.toList =
      [.seg ("src".toList.map Tok.char), .seg ("img".toList.map Tok.char), .globstar,
        .seg [Tok.star, Tok.char '.', Tok.alt ["jpg".toList, "jpeg".toList, "png".toList,
          "gif".toList, "svg".toList, "webp".toList]]] := by decide

theorem parse_copy_all :
    parseGlob "src/scripts/**/*".toList =
      [.seg ("src".toList.map Tok.char), .seg ("scripts".toList.map Tok.char), .globstar,
        .seg [Tok.star]] := by decide

theorem parse_not_script_min :
    parseGlob ("!src/scripts/script.min.js".toList.drop 1) =
      [.seg ("src".toList.map Tok.char), .seg ("scripts".toList.map Tok.char),
        .seg ("script.min.js".toList.map Tok.char)] := by decide

theorem parse_not_script :
    parseGlob ("!src/scripts/**/script.js".toList.drop 1) =
      [.seg ("src".toList.map Tok.char), .seg ("scripts".toList.map Tok.char), .globstar,
        .seg ("script.js".toList.map Tok.char)] := by decide

theorem js_glob_iff (path : Path) :
    globMatch (parseGlob paths.src.js.toList) path = true ↔
      ∃ mid name, path = "src".toList :: "scripts".toList :: (mid ++ [name])
        ∧ mid.all visible = true ∧ visible name = true ∧ ".js".toList <:+ name := by
  rw [parse_js, globMatch_lit_cons _ _ _ (by decide)]
  constructor
  · rintro ⟨r1, rfl, h⟩
    rw [globMatch_lit_cons _ _ _ (by decide)] at h
    obtain ⟨r2, rfl, h⟩ := h
    obtain ⟨mid, name, rfl, hmid, hseg⟩ := (globMatch_globstar_seg _ _).1 h
    rw [segMatch_star, matchToks_star_lit] at hseg
    exact ⟨mid, name, rfl, hmid, hseg.1, hseg.2⟩
  · rintro ⟨mid, name, rfl, hmid, hvis, hjs⟩
    refine ⟨_, rfl, ?_⟩
    rw [globMatch_lit_cons _ _ _ (by decide)]
    refine ⟨_, rfl, ?_⟩
    rw [globMatch_globstar_seg]
    exact ⟨mid, name, rfl, hmid, by rw [segMatch_star, matchToks_star_lit]; exact ⟨hvis, hjs⟩⟩
theorem glob_two_dirs_iff (a b : Str) (p : List Tok) (path : Path)
    (ha : visible a = true) (hb : visible b = true) :
    globMatch [.seg (a.map Tok.char), .seg (b.map Tok.char), .globstar, .seg p] path = true ↔
      ∃ mid name, path = a :: b :: (mid ++ [name])
        ∧ mid.all visible = true ∧ segMatch p name = true := by
  rw [globMatch_lit_cons _ _ _ ha]
  constructor
  · rintro ⟨r1, rfl, h⟩
    rw [globMatch_lit_cons _ _ _ hb] at h
    obtain ⟨r2, rfl, h⟩ := h
    obtain ⟨mid, name, rfl, hmid, hseg⟩ := (globMatch_globstar_seg _ _).1 h
    exact ⟨mid, name, rfl, hmid, hseg⟩
  · rintro ⟨mid, name, rfl, hmid, hseg⟩
    refine ⟨_, rfl, ?_⟩
    rw [globMatch_lit_cons _ _ _ hb]
    exact ⟨_, rfl, (globMatch_globstar_seg _ _).2 ⟨mid, name, rfl, hmid, hseg⟩⟩

theorem dropWhile_not_dot_head (l : List Char) (d : Char) (before : List Char)
    (h : l.dropWhile (fun c => c != '.') = d :: before) : d = '.' := by
  induction l with
  | nil => simp at h
  | cons x l ih =>
    rw [List.dropWhile_cons] at h
    split at h
    · exact ih h
    · rename_i hx
      simp only [List.cons.injEq] at h
      rw [← h.1]
      simpa using hx

theorem extname_suffix (name : Str) : extname name <:+ name := by
  unfold extname
  have hsplit := List.takeWhile_append_dropWhile (fun c => c != '.') name.reverse
  split
  · exact List.nil_suffix
  · rename_i d before hd
    split
    · exact List.nil_suffix
    · split
      · exact List.nil_suffix
      · rw [hd] at hsplit
        have hdot : d = '.' := dropWhile_not_dot_head _ _ _ hd
        subst hdot
        have := congrArg List.reverse hsplit
        simp only [List.reverse_append, List.reverse_cons, List.reverse_reverse] at this
        exact ⟨before.reverse, by simpa [List.append_assoc] using this⟩

theorem parsePath_name (rel : Path) (name : Str) (h : rel.getLast? = some name) :
    (parsePath rel).basename ++ (parsePath rel).extname = name := by
  simp only [parsePath, h, Option.getD_some]
  exact List.suffix_iff_eq_append.1 (extname_suffix name)

theorem extname_js (name : Str) (hvis : visible name = true) (hjs : ".js".toList <:+ name) :
    extname name = ".js".toList := by
  obtain ⟨b, rfl⟩ := hjs
  cases b with
  | nil => simp [visible] at hvis
  | cons c b =>
    simp [visible] at hvis
    simp [extname, List.reverse_append, List.dropWhile, List.takeWhile, hvis]

theorem parsePath_js (mid : Path) (name : Str) (hvis : visible name = true)
    (hjs : ".js".toList <:+ name) :
    parsePath (mid ++ [name]) = ⟨mid, name.take (name.length - 3), ".js".toList⟩ := by
  simp [parsePath, extname_js name hvis hjs]
theorem mem_gulpSrc_one (g : String) (hg : isNegated g = false) (tree : List SrcFile) (v : Vinyl) :
    v ∈ gulpSrc [g] tree ↔ ∃ f ∈ tree, globMatch (parseGlob g.toList) f.path = true
      ∧ v = ⟨globBase (parseGlob g.toList),
          f.path.drop (globBase (parseGlob g.toList)).length, f.contents⟩ := by
  simp only [gulpSrc, List.filter, hg, Bool.not_false, List.map, List.any_nil,
    Bool.false_eq_true, if_false, List.mem_filterMap, List.find?]
  constructor
  · rintro ⟨f, hf, h⟩
    refine ⟨f, hf, ?_⟩
    cases hm : globMatch (parseGlob g.data) f.path <;> simp [hm] at h
    exact ⟨hm, h.symm⟩
  · rintro ⟨f, hf, hm, rfl⟩
    have hm2 : globMatch (parseGlob g.data) f.path = true := hm
    exact ⟨f, hf, by simp [hm2]⟩

theorem mem_gulpSrc_two_negated (g n1 n2 : String) (hg : isNegated g = false)
    (h1 : isNegated n1 = true) (h2 : isNegated n2 = true) (tree : List SrcFile) (v : Vinyl) :
    v ∈ gulpSrc [g, n1, n2] tree ↔ ∃ f ∈ tree, globMatch (parseGlob g.toList) f.path = true
      ∧ globMatch (parseGlob (n1.toList.drop 1)) f.path = false
      ∧ globMatch (parseGlob (n2.toList.drop 1)) f.path = false
      ∧ v = ⟨globBase (parseGlob g.toList),
          f.path.drop (globBase (parseGlob g.toList)).length, f.contents⟩ := by
  simp only [gulpSrc, List.filter, hg, h1, h2, Bool.not_false, Bool.not_true, List.map,
    List.any_cons, List.any_nil, Bool.or_false, List.mem_filterMap, List.find?]
  constructor
  · rintro ⟨f, hf, h⟩
    refine ⟨f, hf, ?_⟩
    cases hm : globMatch (parseGlob g.data) f.path <;> simp [hm] at h
    obtain ⟨⟨ha, hb⟩, hv⟩ := h
    exact ⟨hm, by simpa using ha, by simpa using hb, hv.symm⟩
  · rintro ⟨f, hf, hm, ha, hb, rfl⟩
    have hm2 : globMatch (parseGlob g.data) f.path = true := hm
    have ha2 : globMatch (parseGlob n1.data.tail) f.path = false := by simpa using ha
    have hb2 : globMatch (parseGlob n2.data.tail) f.path = false := by simpa using hb
    exact ⟨f, hf, by simp [hm2, ha2, hb2]⟩

theorem base_js : globBase (parseGlob paths.src.js.toList) = ["src".toList, "scripts".toList] := by
  decide
theorem base_html : globBase (parseGlob paths.src.html.toList) = ["src".toList] := by decide
theorem base_scss : globBase (parseGlob paths.src.scss.toList) = ["src".toList, "scss".toList] := by
  decide
theorem base_images : globBase (parseGlob paths.src.images.toList) = ["src".toList, "img".toList] := by
  decide
theorem base_fonts : globBase (parseGlob paths.src.fonts.toList) = ["src".toList, "fonts".toList] := by
  decide
theorem base_copy_all :
    globBase (parseGlob "src/scripts/**/*".toList) = ["src".toList, "scripts".toList] := by decide
theorem dir_js : dirSegments paths.build.js = ["dist".toList, "scripts".toList] := by decide
theorem dir_html : dirSegments paths.build.html = ["dist".toList] := by decide
theorem dir_css : dirSegments paths.build.css = ["dist".toList, "css".toList] := by decide
theorem dir_images : dirSegments paths.build.images = ["dist".toList, "img".toList] := by decide
theorem dir_fonts : dirSegments paths.build.fonts = ["dist".toList, "fonts".toList] := by decide

theorem mem_scripts (uglify : Contents → Option Contents) (tree : List SrcFile) (w : Written) :
    w ∈ scripts uglify tree ↔ ∃ f ∈ tree, ∃ mid name,
      f.path = "src".toList :: "scripts".toList :: (mid ++ [name])
      ∧ mid.all visible = true ∧ visible name = true ∧ ".js".toList <:+ name
      ∧ ∃ c, uglify f.contents = some c
        ∧ w = ⟨"dist".toList :: "scripts".toList ::
              (mid ++ [replaceTrailingMin (name.take (name.length - 3)) ++ ".min".toList
                ++ ".js".toList]),
            c⟩ := by
  simp only [scripts, List.mem_map, List.mem_filterMap, Option.map_eq_some',
    mem_gulpSrc_one _ (by decide : isNegated paths.src.js = false), js_glob_iff, base_js]
  constructor
  · rintro ⟨v2, ⟨v1, ⟨v0, ⟨f, hf, ⟨mid, name, hp, hmid, hvis, hjs⟩, rfl⟩, c, hc, rfl⟩, rfl⟩, rfl⟩
    refine ⟨f, hf, mid, name, hp, hmid, hvis, hjs, c, hc, ?_⟩
    simp [renameWith, gulpDest, dir_js, hp, parsePath_js mid name hvis hjs, scriptsRename]
  · rintro ⟨f, hf, mid, name, hp, hmid, hvis, hjs, c, hc, rfl⟩
    refine ⟨_, ⟨_, ⟨_, ⟨f, hf, ⟨mid, name, hp, hmid, hvis, hjs⟩, rfl⟩, c, hc, rfl⟩, rfl⟩, ?_⟩
    simp [renameWith, gulpDest, dir_js, hp, parsePath_js mid name hvis hjs, scriptsRename]

/-! ### The rename of `scripts` -/

theorem replaceTrailingMin_append (stem : Str) :
    replaceTrailingMin (stem ++ ".min".toList) = stem := by
  have h : (".min".toList).isSuffixOf (stem ++ ".min".toList) = true := by
    rw [List.isSuffixOf_iff_suffix]; exact List.suffix_append _ _
  simp only [replaceTrailingMin, h, if_true]
  simp

theorem replaceTrailingMin_of_suffix (b : Str) (h : ".min".toList <:+ b) :
    replaceTrailingMin b ++ ".min".toList = b := by
  obtain ⟨s, rfl⟩ := h
  rw [replaceTrailingMin_append]

theorem replaceTrailingMin_of_not_suffix (b : Str) (h : ¬ ".min".toList <:+ b) :
    replaceTrailingMin b = b := by
  have h2 : (".min".toList).isSuffixOf b = false := by
    rw [← Bool.not_eq_true, List.isSuffixOf_iff_suffix]; exact h
  simp only [replaceTrailingMin, h2, Bool.false_eq_true, if_false]

theorem scriptsRename_js (p : ParsedPath) (he : p.extname = ".js".toList) :
    scriptsRename p = { p with basename := replaceTrailingMin p.basename ++ ".min".toList } := by
  rw [scriptsRename, if_pos he]

theorem scriptsRename_other (p : ParsedPath) (he : p.extname ≠ ".js".toList) :
    scriptsRename p = p := by
  rw [scriptsRename, if_neg he]

theorem scriptsRename_idem (p : ParsedPath) : scriptsRename (scriptsRename p) = scriptsRename p := by
  by_cases he : p.extname = ".js".toList
  · rw [scriptsRename_js p he, scriptsRename_js _ (by exact he)]
    show ParsedPath.mk p.dirname
        (replaceTrailingMin (replaceTrailingMin p.basename ++ ".min".toList) ++ ".min".toList)
        p.extname = _
    rw [replaceTrailingMin_append]
  · rw [scriptsRename_other p he, scriptsRename_other p he]

theorem gulpSrc_one_eq (g : String) (hg : isNegated g = false) (tree : List SrcFile) :
    gulpSrc [g] tree = tree.filterMap fun f =>
      if globMatch (parseGlob g.toList) f.path = true then
        some ⟨globBase (parseGlob g.toList),
          f.path.drop (globBase (parseGlob g.toList)).length, f.contents⟩
      else none := by
  simp only [gulpSrc, List.filter, hg, Bool.not_false, List.map, List.any_nil,
    Bool.false_eq_true, if_false, List.find?]
  congr 1
  funext f
  have e : g.toList = g.data := rfl
  rw [e]
  cases globMatch (parseGlob g.data) f.path <;> simp

theorem scripts_append (uglify : Contents → Option Contents) (t1 t2 : List SrcFile) :
    scripts uglify (t1 ++ t2) = scripts uglify t1 ++ scripts uglify t2 := by
  simp [scripts, gulpSrc_one_eq _ (by decide : isNegated paths.src.js = false),
    List.filterMap_append]

theorem scripts_single (uglify : Contents → Option Contents) (f : SrcFile) (mid : Path)
    (name : Str) (c : Contents)
    (hp : f.path = "src".toList :: "scripts".toList :: (mid ++ [name]))
    (hmid : mid.all visible = true) (hvis : visible name = true) (hjs : ".js".toList <:+ name)
    (hc : uglify f.contents = some c) :
    scripts uglify [f] =
      [⟨"dist".toList :: "scripts".toList ::
          (mid ++ [replaceTrailingMin (name.take (name.length - 3)) ++ ".min".toList
            ++ ".js".toList]),
        c⟩] := by
  have hm : globMatch (parseGlob paths.src.js.toList) f.path = true :=
    (js_glob_iff _).2 ⟨mid, name, hp, hmid, hvis, hjs⟩
  rw [scripts, gulpSrc_one_eq _ (by decide)]
  simp only [List.filterMap_cons, List.filterMap_nil, hm, if_true, hc, Option.map_some',
    List.map, base_js]
  simp [renameWith, gulpDest, dir_js, hp, parsePath_js mid name hvis hjs, scriptsRename]

theorem scripts_single_failed (uglify : Contents → Option Contents) (f : SrcFile)
    (hc : uglify f.contents = none) : scripts uglify [f] = [] := by
  rw [scripts, gulpSrc_one_eq _ (by decide)]
  by_cases hm : globMatch (parseGlob paths.src.js.toList) f.path = true <;> simp [hm, hc]

/-- C5 (as stated) fails: `src/scripts/.hidden.js` has extension `.js` and is
not emitted by `scripts`, the glob not matching dot files; and a matched
source that the minifier rejects is not emitted either. -/
theorem scripts_skips_some_js_sources :
    (parsePath [".hidden.js".toList]).extname = ".js".toList
    ∧ scripts some [⟨["src".toList, "scripts".toList, ".hidden.js".toList], [1]⟩] = []
    ∧ globMatch (parseGlob paths.src.js.toList)
        ["src".toList, "scripts".toList, "bad.js".toList] = true
    ∧ scripts (fun c => if c = [0] then none else some c)
        [⟨["src".toList, "scripts".toList, "bad.js".toList], [0]⟩] = [] := by
  decide

/-- C5 (amended): for every source script matched by `src/scripts/**/*.js`
that the minifier accepts, whatever the other files of the tree, the parsed
path has extension `.js` and `scripts` writes the file under the basename
obtained by removing one trailing `.min` (if present) and appending `.min`,
extension and directory unchanged; a matched source that the minifier rejects
is left out; every file written by `scripts` has a basename ending in `.min`
and the extension `.js`; for every parsed path with extension `.js` the new
basename ends in `.min`, a basename already ending in `.min` is kept, and the
rename is idempotent; a path whose extension is not `.js` keeps its
basename. -/
theorem scripts_min_rename (uglify : Contents → Option Contents) (pre post : List SrcFile)
    (f : SrcFile) (c : Contents)
    (hsrc : globMatch (parseGlob paths.src.js.toList) f.path = true)
    (hc : uglify f.contents = some c) :
    (parsePath (f.path.drop 2)).extname = ".js".toList
    ∧ scripts uglify (pre ++ f :: post) =
        scripts uglify pre ++
          ⟨"dist".toList :: "scripts".toList ::
            ((parsePath (f.path.drop 2)).dirname ++
              [replaceTrailingMin (parsePath (f.path.drop 2)).basename ++ ".min".toList
                ++ (parsePath (f.path.drop 2)).extname]),
            c⟩ :: scripts uglify post
    ∧ (∀ g : SrcFile, uglify g.contents = none →
        scripts uglify (pre ++ g :: post) = scripts uglify pre ++ scripts uglify post)
    ∧ (∀ w ∈ scripts uglify (pre ++ f :: post), ∃ (dir : Path) (stem : Str),
        w.path = "dist".toList :: "scripts".toList ::
          (dir ++ [stem ++ ".min".toList ++ ".js".toList]))
    ∧ (∀ p : ParsedPath, p.extname = ".js".toList →
        (scriptsRename p).basename = replaceTrailingMin p.basename ++ ".min".toList
        ∧ (scriptsRename p).extname = p.extname
        ∧ (scriptsRename p).dirname = p.dirname
        ∧ ".min".toList <:+ (scriptsRename p).basename
        ∧ (".min".toList <:+ p.basename → scriptsRename p = p))
    ∧ (∀ stem : Str, replaceTrailingMin (stem ++ ".min".toList) = stem)
    ∧ (∀ b : Str, ¬ ".min".toList <:+ b → replaceTrailingMin b = b)
    ∧ (∀ p : ParsedPath, scriptsRename (scriptsRename p) = scriptsRename p)
    ∧ (∀ p : ParsedPath, p.extname ≠ ".js".toList → (scriptsRename p).basename = p.basename) := by
  obtain ⟨mid, name, hp, hmid, hvis, hjs⟩ := (js_glob_iff _).1 hsrc
  have hpp : parsePath (f.path.drop 2) = ⟨mid, name.take (name.length - 3), ".js".toList⟩ := by
    rw [hp]; exact parsePath_js mid name hvis hjs
  refine ⟨by rw [hpp], ?_, ?_, ?_, ?_, replaceTrailingMin_append,
    replaceTrailingMin_of_not_suffix, scriptsRename_idem, ?_⟩
  · rw [hpp, scripts_append, ← List.singleton_append (l := post), scripts_append,
      scripts_single uglify f mid name c hp hmid hvis hjs hc]
    rfl
  · intro g hg
    rw [scripts_append, ← List.singleton_append (l := post), scripts_append,
      scripts_single_failed uglify g hg]
    rfl
  · intro w hw
    obtain ⟨_, _, m, n, _, _, _, _, _, _, rfl⟩ := (mem_scripts _ _ _).1 hw
    exact ⟨m, _, rfl⟩
  · intro p he
    rw [scriptsRename_js p he]
    refine ⟨rfl, rfl, rfl, List.suffix_append _ _, ?_⟩
    intro hs
    show ParsedPath.mk p.dirname (replaceTrailingMin p.basename ++ ".min".toList) p.extname = p
    rw [replaceTrailingMin_of_suffix p.basename hs]
  · intro p he
    rw [scriptsRename_other p he]

/-- In a tree of three scripts, `src/scripts/app.js` is written to
`dist/scripts/app.min.js` between the outputs of its neighbours. -/
theorem scripts_min_rename_witness :
    scripts some
      [⟨["src".toList, "scripts".toList, "a.min.js".toList], [0]⟩,
        ⟨["src".toList, "scripts".toList, "app.js".toList], [1]⟩,
        ⟨["src".toList, "scripts".toList, "lib".toList, "b.js".toList], [2]⟩] =
      [⟨["dist".toList, "scripts".toList, "a.min.js".toList], [0]⟩,
        ⟨["dist".toList, "scripts".toList, "app.min.js".toList], [1]⟩,
        ⟨["dist".toList, "scripts".toList, "lib".toList, "b.min.js".toList], [2]⟩] := by
  have h := (scripts_min_rename some
    [⟨["src".toList, "scripts".toList, "a.min.js".toList], [0]⟩]
    [⟨["src".toList, "scripts".toList, "lib".toList, "b.js".toList], [2]⟩]
    ⟨["src".toList, "scripts".toList, "app.js".toList], [1]⟩ [1]
    (by decide) rfl).2.1
  rw [show ([⟨["src".toList, "scripts".toList, "a.min.js".toList], [0]⟩,
        ⟨["src".toList, "scripts".toList, "app.js".toList], [1]⟩,
        ⟨["src".toList, "scripts".toList, "lib".toList, "b.js".toList], [2]⟩] : List SrcFile) =
      [⟨["src".toList, "scripts".toList, "a.min.js".toList], [0]⟩] ++
        ⟨["src".toList, "scripts".toList, "app.js".toList], [1]⟩ ::
        [⟨["src".toList, "scripts".toList, "lib".toList, "b.js".toList], [2]⟩] from rfl, h]
  decide

/-! ### Collisions inside `scripts` -/

theorem mem_outPaths (ws : List Written) (p : Path) :
    p ∈ outPaths ws ↔ ∃ w ∈ ws, w.path = p := by
  simp [outPaths]

theorem take_of_append_js (b : Str) : (b ++ ".js".toList).take ((b ++ ".js".toList).length - 3) = b := by
  simp

theorem append_singleton_inj (m1 m2 : Path) (a b : Str) (h : m1 ++ [a] = m2 ++ [b]) :
    m1 = m2 ∧ a = b := by
  have := List.append_inj' h rfl
  exact ⟨this.1, by simpa using this.2⟩

/-- C9 (as stated) fails: `src/scripts/a.js` and `src/scripts/a.min.js` are two
distinct sources matched by the glob of `scripts`, and both are written to
`dist/scripts/a.min.js`. -/
theorem scripts_rename_collision :
    globMatch (parseGlob paths.src.js.toList) ["src".toList, "scripts".toList, "a.js".toList] = true
    ∧ globMatch (parseGlob paths.src.js.toList)
        ["src".toList, "scripts".toList, "a.min.js".toList] = true
    ∧ ["src".toList, "scripts".toList, "a.js".toList]
        ≠ ["src".toList, "scripts".toList, "a.min.js".toList]
    ∧ outPaths (scripts some [⟨["src".toList, "scripts".toList, "a.js".toList], [1]⟩]) =
        [["dist".toList, "scripts".toList, "a.min.js".toList]]
    ∧ outPaths (scripts some [⟨["src".toList, "scripts".toList, "a.min.js".toList], [2]⟩]) =
        [["dist".toList, "scripts".toList, "a.min.js".toList]] := by
  decide

/-- C9 (amended): two sources matched by the glob of `scripts` are written to
the same path only if they are the same path, or lie in the same directory
with names `x.js` and `x.min.js`. -/
theorem scripts_rename_injective_up_to_min (uglify : Contents → Option Contents)
    (f g : SrcFile) (p : Path)
    (hf : globMatch (parseGlob paths.src.js.toList) f.path = true)
    (hg : globMatch (parseGlob paths.src.js.toList) g.path = true)
    (hpf : p ∈ outPaths (scripts uglify [f])) (hpg : p ∈ outPaths (scripts uglify [g])) :
    f.path = g.path
    ∨ ∃ (dir : Path) (stem : Str),
        (f.path = dir ++ [stem ++ ".js".toList] ∧ g.path = dir ++ [stem ++ ".min.js".toList])
        ∨ (g.path = dir ++ [stem ++ ".js".toList] ∧ f.path = dir ++ [stem ++ ".min.js".toList]) := by
  rw [mem_outPaths] at hpf hpg
  obtain ⟨w1, hw1, rfl⟩ := hpf
  obtain ⟨w2, hw2, hout⟩ := hpg
  obtain ⟨f1, hf1, m1, n1, hp1, _, _, ⟨b1, rfl⟩, _, _, rfl⟩ := (mem_scripts _ _ _).1 hw1
  obtain ⟨g1, hg1, m2, n2, hp2, _, _, ⟨b2, rfl⟩, _, _, rfl⟩ := (mem_scripts _ _ _).1 hw2
  obtain rfl : f1 = f := by simpa using hf1
  obtain rfl : g1 = g := by simpa using hg1
  simp only [List.cons.injEq, true_and, take_of_append_js] at hout
  obtain ⟨hmid, hname⟩ := append_singleton_inj _ _ _ _ hout
  subst hmid
  have hstem : replaceTrailingMin b2 = replaceTrailingMin b1 := by
    have := List.append_cancel_right hname
    exact List.append_cancel_right this
  by_cases h1 : ".min".toList <:+ b1 <;> by_cases h2 : ".min".toList <:+ b2
  · left
    rw [hp1, hp2, ← replaceTrailingMin_of_suffix b1 h1, ← replaceTrailingMin_of_suffix b2 h2, hstem]
  · right
    refine ⟨"src".toList :: "scripts".toList :: m2, b2, Or.inr ⟨by rw [hp2]; rfl, ?_⟩⟩
    rw [hp1, ← replaceTrailingMin_of_suffix b1 h1, ← hstem, replaceTrailingMin_of_not_suffix b2 h2]
    simp
  · right
    refine ⟨"src".toList :: "scripts".toList :: m2, b1, Or.inl ⟨by rw [hp1]; rfl, ?_⟩⟩
    rw [hp2, ← replaceTrailingMin_of_suffix b2 h2, hstem, replaceTrailingMin_of_not_suffix b1 h1]
    simp
  · left
    rw [hp1, hp2, ← replaceTrailingMin_of_not_suffix b1 h1,
      ← replaceTrailingMin_of_not_suffix b2 h2, hstem]

/-- The sources `src/scripts/a.js` and `src/scripts/a.min.js`, written to the
same path, are a pair `x.js`, `x.min.js` of one directory. -/
theorem scripts_rename_injective_up_to_min_witness :
    (["src".toList, "scripts".toList, "a.js".toList] : Path)
        = ["src".toList, "scripts".toList, "a.min.js".toList]
    ∨ ∃ (dir : Path) (stem : Str),
        (["src".toList, "scripts".toList, "a.js".toList] = dir ++ [stem ++ ".js".toList]
          ∧ ["src".toList, "scripts".toList, "a.min.js".toList]
              = dir ++ [stem ++ ".min.js".toList])
        ∨ (["src".toList, "scripts".toList, "a.min.js".toList] = dir ++ [stem ++ ".js".toList]
          ∧ ["src".toList, "scripts".toList, "a.js".toList]
              = dir ++ [stem ++ ".min.js".toList]) :=
  scripts_rename_injective_up_to_min some
    ⟨["src".toList, "scripts".toList, "a.js".toList], [1]⟩
    ⟨["src".toList, "scripts".toList, "a.min.js".toList], [2]⟩
    ["dist".toList, "scripts".toList, "a.min.js".toList]
    (by decide) (by decide) (by decide) (by decide)

/-! ### `copyScripts` -/

theorem globMatch_nil (path : Path) : globMatch [] path = true ↔ path = [] := by
  cases path <;> simp [globMatch]

theorem not_script_min_iff (path : Path) :
    globMatch (parseGlob ("!src/scripts/script.min.js".toList.drop 1)) path = true ↔
      path = ["src".toList, "scripts".toList, "script.min.js".toList] := by
  rw [parse_not_script_min, globMatch_lit_cons _ _ _ (by decide)]
  constructor
  · rintro ⟨r1, rfl, h⟩
    rw [globMatch_lit_cons _ _ _ (by decide)] at h
    obtain ⟨r2, rfl, h⟩ := h
    rw [globMatch_lit_cons _ _ _ (by decide)] at h
    obtain ⟨r3, rfl, h⟩ := h
    rw [globMatch_nil] at h
    rw [h]
  · rintro rfl
    refine ⟨_, rfl, ?_⟩
    rw [globMatch_lit_cons _ _ _ (by decide)]
    refine ⟨_, rfl, ?_⟩
    rw [globMatch_lit_cons _ _ _ (by decide)]
    exact ⟨_, rfl, rfl⟩

theorem not_script_iff (path : Path) :
    globMatch (parseGlob ("!src/scripts/**/script.js".toList.drop 1)) path = true ↔
      ∃ mid, path = "src".toList :: "scripts".toList :: (mid ++ ["script.js".toList])
        ∧ mid.all visible = true := by
  rw [parse_not_script, glob_two_dirs_iff _ _ _ _ (by decide) (by decide)]
  constructor
  · rintro ⟨mid, name, rfl, hmid, hseg⟩
    rw [segMatch_lit _ _ (by decide)] at hseg
    subst hseg
    exact ⟨mid, rfl, hmid⟩
  · rintro ⟨mid, rfl, hmid⟩
    exact ⟨mid, _, rfl, hmid, by rw [segMatch_lit _ _ (by decide)]⟩

theorem copy_all_iff (path : Path) :
    globMatch (parseGlob "src/scripts/**/*".toList) path = true ↔
      ∃ mid name, path = "src".toList :: "scripts".toList :: (mid ++ [name])
        ∧ mid.all visible = true ∧ visible name = true := by
  rw [parse_copy_all, glob_two_dirs_iff _ _ _ _ (by decide) (by decide)]
  constructor
  · rintro ⟨mid, name, rfl, hmid, hseg⟩
    rw [segMatch_star] at hseg
    exact ⟨mid, name, rfl, hmid, hseg.1⟩
  · rintro ⟨mid, name, rfl, hmid, hvis⟩
    exact ⟨mid, name, rfl, hmid, by rw [segMatch_star]; exact ⟨hvis, matchToks_star name⟩⟩

theorem mem_copyScripts (tree : List SrcFile) (w : Written) :
    w ∈ copyScripts tree ↔ ∃ f ∈ tree, ∃ mid name,
      f.path = "src".toList :: "scripts".toList :: (mid ++ [name])
      ∧ mid.all visible = true ∧ visible name = true
      ∧ name ≠ "script.js".toList ∧ mid ++ [name] ≠ ["script.min.js".toList]
      ∧ w = ⟨"dist".toList :: "scripts".toList :: (mid ++ [name]), f.contents⟩ := by
  simp only [copyScripts, List.mem_map,
    mem_gulpSrc_two_negated _ _ _ (by decide : isNegated "src/scripts/**/*" = false)
      (by decide : isNegated "!src/scripts/script.min.js" = true)
      (by decide : isNegated "!src/scripts/**/script.js" = true),
    base_copy_all]
  constructor
  · rintro ⟨v, ⟨f, hf, hpos, hn1, hn2, rfl⟩, rfl⟩
    obtain ⟨mid, name, hp, hmid, hvis⟩ := (copy_all_iff _).1 hpos
    refine ⟨f, hf, mid, name, hp, hmid, hvis, ?_, ?_, ?_⟩
    · rintro rfl
      rw [← Bool.not_eq_true, not_script_iff] at hn2
      exact hn2 ⟨mid, hp, hmid⟩
    · intro h
      rw [← Bool.not_eq_true, not_script_min_iff] at hn1
      exact hn1 (by rw [hp, h])
    · simp [gulpDest, dir_js, hp]
  · rintro ⟨f, hf, mid, name, hp, hmid, hvis, hne, hne2, rfl⟩
    refine ⟨_, ⟨f, hf, (copy_all_iff _).2 ⟨mid, name, hp, hmid, hvis⟩, ?_, ?_, rfl⟩, ?_⟩
    · rw [← Bool.not_eq_true, not_script_min_iff]
      intro h
      rw [hp] at h
      simp only [List.cons.injEq, true_and] at h
      exact hne2 h
    · rw [← Bool.not_eq_true, not_script_iff]
      rintro ⟨mid2, h, _⟩
      rw [hp] at h
      simp only [List.cons.injEq, true_and] at h
      exact hne (append_singleton_inj _ _ _ _ h).2
    · simp [gulpDest, dir_js, hp]

/-- C8: the code departs from the claim, which is also what the comment above
`copyScripts` says (all files except `script.js`): `src/scripts/script.min.js`
is not named `script.js` and is not copied, and neither is the dot file
`src/scripts/.eslintrc`. -/
theorem copyScripts_skips_more_than_script_js :
    "script.min.js".toList ≠ "script.js".toList
    ∧ (⟨["dist".toList, "scripts".toList, "script.min.js".toList], [1]⟩ : Written) ∉
        copyScripts [⟨["src".toList, "scripts".toList, "script.min.js".toList], [1]⟩]
    ∧ ".eslintrc".toList ≠ "script.js".toList
    ∧ (⟨["dist".toList, "scripts".toList, ".eslintrc".toList], [1]⟩ : Written) ∉
        copyScripts [⟨["src".toList, "scripts".toList, ".eslintrc".toList], [1]⟩] := by
  decide

/-- What `copyScripts` does copy: a file under `src/scripts` is written to the
same relative path under `dist/scripts/`, with unchanged content, if and only
if no segment of its relative path starts with a dot, its name is not
`script.js` and it is not `src/scripts/script.min.js`; and `copyScripts`
writes nothing else. -/
theorem copyScripts_copies_iff (tree : List SrcFile) (f : SrcFile) (hf : f ∈ tree) (rel : Path)
    (hrel : f.path = "src".toList :: "scripts".toList :: rel) :
    ((⟨"dist".toList :: "scripts".toList :: rel, f.contents⟩ : Written) ∈ copyScripts tree ↔
      rel ≠ [] ∧ rel.all visible = true ∧ rel.getLast? ≠ some "script.js".toList
        ∧ rel ≠ ["script.min.js".toList])
    ∧ ∀ w ∈ copyScripts tree, ∃ g ∈ tree, ∃ r : Path,
        g.path = "src".toList :: "scripts".toList :: r
        ∧ w = ⟨"dist".toList :: "scripts".toList :: r, g.contents⟩ := by
  constructor
  · rw [mem_copyScripts]
    constructor
    · rintro ⟨g, _, mid, name, _, hmid, hvis, hne, hne2, hw⟩
      simp only [Written.mk.injEq, List.cons.injEq, true_and] at hw
      obtain ⟨rfl, _⟩ := hw
      refine ⟨by simp, by simp [hmid, hvis], by simpa using hne, hne2⟩
    · rintro ⟨hne, hvis, hlast, hmin⟩
      obtain ⟨mid, name, rfl⟩ : ∃ mid name, rel = mid ++ [name] :=
        ⟨rel.dropLast, rel.getLast hne, (List.dropLast_append_getLast hne).symm⟩
      simp only [List.all_append, Bool.and_eq_true, List.all_cons, List.all_nil,
        Bool.and_true] at hvis
      exact ⟨f, hf, mid, name, hrel, hvis.1, hvis.2, by simpa using hlast, hmin, rfl⟩
  · intro w hw
    obtain ⟨g, hg, mid, name, hp, _, _, _, _, rfl⟩ := (mem_copyScripts tree w).1 hw
    exact ⟨g, hg, mid ++ [name], hp, rfl⟩

/-- The file `src/scripts/lib/util.js` is copied to
`dist/scripts/lib/util.js`. -/
theorem copyScripts_copies_iff_witness :
    (⟨["dist".toList, "scripts".toList, "lib".toList, "util.js".toList], [7]⟩ : Written) ∈
      copyScripts [⟨["src".toList, "scripts".toList, "lib".toList, "util.js".toList], [7]⟩] :=
  ((copyScripts_copies_iff
      [⟨["src".toList, "scripts".toList, "lib".toList, "util.js".toList], [7]⟩]
      ⟨["src".toList, "scripts".toList, "lib".toList, "util.js".toList], [7]⟩
      (by simp) ["lib".toList, "util.js".toList] rfl).1).2
    ⟨by decide, by decide, by decide, by decide⟩

/-! ### The image task of the two pipelines -/

/-- C2 (as stated) fails in production mode: the Concurrent group of the
default pipeline holds `copyImages`, not `optimizeImages`, so its children
before the last step are not those of `build`. -/
theorem default_wires_copyImages_in_production :
    imageTask true = TaskName.optimizeImages
    ∧ Task.leaf (imageTask true) ∈ concurrentGroup (build true)
    ∧ Task.leaf (imageTask true) ∉ concurrentGroup defaultTask
    ∧ Task.leaf TaskName.copyImages ∈ concurrentGroup defaultTask
    ∧ defaultTask.children.dropLast ≠ (build true).children := by
  simp [imageTask, concurrentGroup, build, defaultTask, Task.children]

/-- C2 (amended): the image task wired into the Concurrent group of `build` is
`optimizeImages` in production mode and `copyImages` otherwise; the Concurrent
group of the default pipeline holds `copyImages` in either mode; the default
pipeline is the children of the development-mode `build` followed by
`Concurrent(serve, watch)`, and its children before that last step are those
of `build` exactly when the mode is not production. -/
theorem image_task_wiring (isProduction : Bool) :
    concurrentGroup (build isProduction) =
      [.leaf .scripts, .leaf .html,
        .leaf (if isProduction then TaskName.optimizeImages else TaskName.copyImages),
        .leaf .copyScripts, .leaf .copyFonts]
    ∧ concurrentGroup defaultTask =
      [.leaf .scripts, .leaf .html, .leaf .copyImages, .leaf .copyScripts, .leaf .copyFonts]
    ∧ defaultTask.children =
      (build false).children ++ [Task.parallel [.leaf .serve, .leaf .watch]]
    ∧ (defaultTask.children.dropLast = (build isProduction).children ↔ isProduction = false) := by
  cases isProduction <;> simp [imageTask, concurrentGroup, build, defaultTask, Task.children]

/-! ### Names used by the tasks -/

/-- C10: in production mode `build` runs `optimizeImages`, whose body uses
`imagemin`, `imageminMozjpeg`, `imageminPngquant`, `imageminSvgo` and
`imageminWebp`; none of them is bound by an import or a top-level
declaration.  Every other name used by a reachable task is bound: in
development mode all of them are. -/
theorem optimizeImages_uses_unbound_names :
    TaskName.optimizeImages ∈ (build true).leaves
    ∧ TaskName.optimizeImages ∈ reachable true
    ∧ (∀ n ∈ ["imagemin", "imageminMozjpeg", "imageminPngquant", "imageminSvgo", "imageminWebp"],
        n ∈ usedNames .optimizeImages ∧ n ∉ boundNames)
    ∧ (∀ t ∈ reachable true, t ≠ TaskName.optimizeImages → ∀ n ∈ usedNames t, n ∈ boundNames)
    ∧ (∀ t ∈ reachable false, ∀ n ∈ usedNames t, n ∈ boundNames) := by
  decide

/-! ### The other tasks of the Concurrent group -/

theorem glob_one_dir_iff (a : Str) (p : List Tok) (path : Path) (ha : visible a = true) :
    globMatch [.seg (a.map Tok.char), .globstar, .seg p] path = true ↔
      ∃ mid name, path = a :: (mid ++ [name])
        ∧ mid.all visible = true ∧ segMatch p name = true := by
  rw [globMatch_lit_cons _ _ _ ha]
  constructor
  · rintro ⟨r1, rfl, h⟩
    obtain ⟨mid, name, rfl, hmid, hseg⟩ := (globMatch_globstar_seg _ _).1 h
    exact ⟨mid, name, rfl, hmid, hseg⟩
  · rintro ⟨mid, name, rfl, hmid, hseg⟩
    exact ⟨_, rfl, (globMatch_globstar_seg _ _).2 ⟨mid, name, rfl, hmid, hseg⟩⟩

theorem html_glob_iff (path : Path) :
    globMatch (parseGlob paths.src.html.toList) path = true ↔
      ∃ mid name, path = "src".toList :: (mid ++ [name])
        ∧ mid.all visible = true ∧ visible name = true ∧ ".html".toList <:+ name := by
  rw [parse_html, glob_one_dir_iff _ _ _ (by decide)]
  simp only [segMatch_star, matchToks_star_lit]

theorem scss_glob_iff (path : Path) :
    globMatch (parseGlob paths.src.scss.toList) path = true ↔
      ∃ mid name, path = "src".toList :: "scss".toList :: (mid ++ [name])
        ∧ mid.all visible = true ∧ visible name = true ∧ ".scss".toList <:+ name := by
  rw [parse_scss, glob_two_dirs_iff _ _ _ _ (by decide) (by decide)]
  simp only [segMatch_star, matchToks_star_lit]

theorem fonts_glob_iff (path : Path) :
    globMatch (parseGlob paths.src.fonts.toList) path = true ↔
      ∃ mid name, path = "src".toList :: "fonts".toList :: (mid ++ [name])
        ∧ mid.all visible = true ∧ visible name = true := by
  rw [parse_fonts, glob_two_dirs_iff _ _ _ _ (by decide) (by decide)]
  simp only [segMatch_star, matchToks_star, and_true]

theorem images_glob_iff (path : Path) :
    globMatch (parseGlob paths.src.images.toList) path = true ↔
      ∃ mid name, path = "src".toList :: "img".toList :: (mid ++ [name])
        ∧ mid.all visible = true ∧ visible name = true
        ∧ ∃ e ∈ ["jpg".toList, "jpeg".toList, "png".toList, "gif".toList, "svg".toList,
            "webp".toList], ('.' :: e) <:+ name := by
  rw [parse_images, glob_two_dirs_iff _ _ _ _ (by decide) (by decide)]
  simp only [segMatch_star, matchToks_star_dot_alt]

theorem mem_html (posthtml : Contents → Contents) (tree : List SrcFile) (w : Written) :
    w ∈ html posthtml tree ↔ ∃ f ∈ tree, ∃ mid name,
      f.path = "src".toList :: (mid ++ [name])
      ∧ mid.all visible = true ∧ visible name = true ∧ ".html".toList <:+ name
      ∧ w = ⟨"dist".toList :: (mid ++ [name]), posthtml f.contents⟩ := by
  simp only [html, List.mem_map, mem_gulpSrc_one _ (by decide : isNegated paths.src.html = false),
    html_glob_iff, base_html]
  constructor
  · rintro ⟨v1, ⟨v0, ⟨f, hf, ⟨mid, name, hp, hmid, hvis, hext⟩, rfl⟩, rfl⟩, rfl⟩
    exact ⟨f, hf, mid, name, hp, hmid, hvis, hext, by simp [gulpDest, dir_html, hp]⟩
  · rintro ⟨f, hf, mid, name, hp, hmid, hvis, hext, rfl⟩
    exact ⟨_, ⟨_, ⟨f, hf, ⟨mid, name, hp, hmid, hvis, hext⟩, rfl⟩, rfl⟩,
      by simp [gulpDest, dir_html, hp]⟩

theorem mem_copyFonts (tree : List SrcFile) (w : Written) :
    w ∈ copyFonts tree ↔ ∃ f ∈ tree, ∃ mid name,
      f.path = "src".toList :: "fonts".toList :: (mid ++ [name])
      ∧ mid.all visible = true ∧ visible name = true
      ∧ w = ⟨"dist".toList :: "fonts".toList :: (mid ++ [name]), f.contents⟩ := by
  simp only [copyFonts, List.mem_map,
    mem_gulpSrc_one _ (by decide : isNegated paths.src.fonts = false), fonts_glob_iff, base_fonts]
  constructor
  · rintro ⟨v0, ⟨f, hf, ⟨mid, name, hp, hmid, hvis⟩, rfl⟩, rfl⟩
    exact ⟨f, hf, mid, name, hp, hmid, hvis, by simp [gulpDest, dir_fonts, hp]⟩
  · rintro ⟨f, hf, mid, name, hp, hmid, hvis, rfl⟩
    exact ⟨_, ⟨f, hf, ⟨mid, name, hp, hmid, hvis⟩, rfl⟩, by simp [gulpDest, dir_fonts, hp]⟩

theorem mem_imageTaskFiles (isProduction : Bool) (imagemin : Contents → Contents)
    (tree : List SrcFile) (w : Written) :
    w ∈ imageTaskFiles isProduction imagemin tree ↔ ∃ f ∈ tree, ∃ mid name,
      f.path = "src".toList :: "img".toList :: (mid ++ [name])
      ∧ mid.all visible = true ∧ visible name = true
      ∧ (∃ e ∈ ["jpg".toList, "jpeg".toList, "png".toList, "gif".toList, "svg".toList,
            "webp".toList], ('.' :: e) <:+ name)
      ∧ w = ⟨"dist".toList :: "img".toList :: (mid ++ [name]),
          if isProduction then imagemin f.contents else f.contents⟩ := by
  cases isProduction <;>
    simp only [imageTaskFiles, copyImages, optimizeImages, List.mem_map, Bool.false_eq_true,
      if_false, if_true,
      mem_gulpSrc_one _ (by decide : isNegated paths.src.images = false), images_glob_iff,
      base_images]
  · constructor
    · rintro ⟨v0, ⟨f, hf, ⟨mid, name, hp, hmid, hvis, hext⟩, rfl⟩, rfl⟩
      exact ⟨f, hf, mid, name, hp, hmid, hvis, hext, by simp [gulpDest, dir_images, hp]⟩
    · rintro ⟨f, hf, mid, name, hp, hmid, hvis, hext, rfl⟩
      exact ⟨_, ⟨f, hf, ⟨mid, name, hp, hmid, hvis, hext⟩, rfl⟩,
        by simp [gulpDest, dir_images, hp]⟩
  · constructor
    · rintro ⟨v1, ⟨v0, ⟨f, hf, ⟨mid, name, hp, hmid, hvis, hext⟩, rfl⟩, rfl⟩, rfl⟩
      exact ⟨f, hf, mid, name, hp, hmid, hvis, hext, by simp [gulpDest, dir_images, hp]⟩
    · rintro ⟨f, hf, mid, name, hp, hmid, hvis, hext, rfl⟩
      exact ⟨_, ⟨_, ⟨f, hf, ⟨mid, name, hp, hmid, hvis, hext⟩, rfl⟩, rfl⟩,
        by simp [gulpDest, dir_images, hp]⟩

/-! ### Output paths of the Concurrent group -/

theorem last_of_cons_append (a : Str) (m1 m2 : Path) (x y : Str)
    (h : m1 ++ [x] = a :: (m2 ++ [y])) : x = y := by
  have h2 : m1 ++ [x] = (a :: m2) ++ [y] := by simpa using h
  exact (append_singleton_inj _ _ _ _ h2).2

theorem last_char_of_suffix (s n : Str) (c : Char) (h : (s ++ [c]) <:+ n) :
    n.getLast? = some c := by
  obtain ⟨t, rfl⟩ := h
  simp [← List.append_assoc]

theorem html_not_min_js (x name : Str) (h : ".html".toList <:+ name)
    (hx : name = x ++ ".min".toList ++ ".js".toList) : False := by
  have h1 := last_char_of_suffix ".htm".toList name 'l' h
  have h2 : name.getLast? = some 's' := by
    rw [hx]; exact last_char_of_suffix ".j".toList _ 's' ⟨x ++ ".min".toList, by simp⟩
  rw [h1] at h2
  exact absurd h2 (by decide)

theorem html_not_image (name : Str) (h : ".html".toList <:+ name)
    (he : ∃ e ∈ ["jpg".toList, "jpeg".toList, "png".toList, "gif".toList, "svg".toList,
      "webp".toList], ('.' :: e) <:+ name) : False := by
  have h1 := last_char_of_suffix ".htm".toList name 'l' h
  obtain ⟨e, hmem, hs⟩ := he
  simp only [List.mem_cons, List.mem_nil_iff, or_false] at hmem
  rcases hmem with rfl | rfl | rfl | rfl | rfl | rfl
  · have := last_char_of_suffix ".jp".toList name 'g' hs; rw [h1] at this; exact absurd this (by decide)
  · have := last_char_of_suffix ".jpe".toList name 'g' hs; rw [h1] at this; exact absurd this (by decide)
  · have := last_char_of_suffix ".pn".toList name 'g' hs; rw [h1] at this; exact absurd this (by decide)
  · have := last_char_of_suffix ".gi".toList name 'f' hs; rw [h1] at this; exact absurd this (by decide)
  · have := last_char_of_suffix ".sv".toList name 'g' hs; rw [h1] at this; exact absurd this (by decide)
  · have := last_char_of_suffix ".web".toList name 'p' hs; rw [h1] at this; exact absurd this (by decide)


theorem getLast_two_dirs (a b : Str) (m : Path) (n : Str) :
    (a :: b :: (m ++ [n])).getLast?.getD [] = n := by
  have : a :: b :: (m ++ [n]) = (a :: b :: m) ++ [n] := by simp
  rw [this, List.getLast?_concat]; rfl

/-- C7 (as stated) fails: with `src/scripts/vendor.min.js` in the tree,
`scripts` and `copyScripts` both write `dist/scripts/vendor.min.js`; with
`src/scripts/x.html`, `html` and `copyScripts` both write
`dist/scripts/x.html`; with `src/fonts/x.html`, `html` and `copyFonts` both
write `dist/fonts/x.html`. -/
theorem concurrent_outputs_overlap :
    (["dist".toList, "scripts".toList, "vendor.min.js".toList] ∈
        outPaths (scripts some [⟨["src".toList, "scripts".toList, "vendor.min.js".toList], [1]⟩])
      ∧ ["dist".toList, "scripts".toList, "vendor.min.js".toList] ∈
        outPaths (copyScripts [⟨["src".toList, "scripts".toList, "vendor.min.js".toList], [1]⟩]))
    ∧ (["dist".toList, "scripts".toList, "x.html".toList] ∈
        outPaths (html id [⟨["src".toList, "scripts".toList, "x.html".toList], [1]⟩])
      ∧ ["dist".toList, "scripts".toList, "x.html".toList] ∈
        outPaths (copyScripts [⟨["src".toList, "scripts".toList, "x.html".toList], [1]⟩]))
    ∧ (["dist".toList, "fonts".toList, "x.html".toList] ∈
        outPaths (html id [⟨["src".toList, "fonts".toList, "x.html".toList], [1]⟩])
      ∧ ["dist".toList, "fonts".toList, "x.html".toList] ∈
        outPaths (copyFonts [⟨["src".toList, "fonts".toList, "x.html".toList], [1]⟩])) := by
  decide

/-- C7 (amended): for every source tree in which no file under `src/scripts`
other than `src/scripts/script.min.js` has a name ending in `.min.js`, and no
file under `src/scripts` or `src/fonts` has a name ending in `.html`, the sets
of output paths of any two tasks of the Concurrent group of `build` (scripts,
html, the image task, copyScripts, copyFonts) are disjoint. -/
theorem concurrent_outputs_disjoint (isProduction : Bool)
    (uglify : Contents → Option Contents) (posthtml imagemin : Contents → Contents)
    (tree : List SrcFile)
    (h1 : NoCopiedMinJs tree) (h2 : NoHtmlAmongCopies tree) :
    List.Pairwise List.Disjoint
      [outPaths (scripts uglify tree), outPaths (html posthtml tree),
        outPaths (imageTaskFiles isProduction imagemin tree),
        outPaths (copyScripts tree), outPaths (copyFonts tree)] := by
  simp only [List.pairwise_cons, List.mem_cons, List.mem_nil_iff, or_false, forall_eq_or_imp,
    forall_eq, List.Pairwise.nil, and_true, List.not_mem_nil, false_implies, implies_true]
  refine ⟨⟨?_, ?_, ?_, ?_⟩, ⟨?_, ?_, ?_⟩, ⟨?_, ?_⟩, ?_⟩
  all_goals
    intro p hp1 hp2
    rw [mem_outPaths] at hp1 hp2
    obtain ⟨w1, hw1, rfl⟩ := hp1
    obtain ⟨w2, hw2, he⟩ := hp2
  · -- scripts, html
    obtain ⟨f, _, m1, n1, _, _, _, _, _, _, rfl⟩ := (mem_scripts _ _ _).1 hw1
    obtain ⟨g, _, m2, n2, _, _, _, hext, rfl⟩ := (mem_html _ _ _).1 hw2
    simp only [List.cons.injEq, true_and] at he
    exact html_not_min_js _ n2 hext (last_of_cons_append _ _ _ _ _ he)
  · -- scripts, images
    obtain ⟨f, _, m1, n1, _, _, _, _, _, _, rfl⟩ := (mem_scripts _ _ _).1 hw1
    obtain ⟨g, _, m2, n2, _, _, _, _, rfl⟩ := (mem_imageTaskFiles _ _ _ _).1 hw2
    simp only [List.cons.injEq, true_and] at he
    exact absurd he.1 (by decide)
  · -- scripts, copyScripts
    obtain ⟨f, _, m1, n1, _, _, _, _, _, _, rfl⟩ := (mem_scripts _ _ _).1 hw1
    obtain ⟨g, hg, m2, n2, hp2, _, _, _, hmin, rfl⟩ := (mem_copyScripts _ _).1 hw2
    simp only [List.cons.injEq, true_and] at he
    have hn := (append_singleton_inj _ _ _ _ he).2
    have hfull := h1 g hg (by rw [hp2]; rfl)
      (by rw [hp2, getLast_two_dirs, hn]
          exact ⟨replaceTrailingMin (n1.take (n1.length - 3)), by simp⟩)
    rw [hp2] at hfull
    simp only [List.cons.injEq, true_and] at hfull
    exact hmin hfull
  · -- scripts, copyFonts
    obtain ⟨f, _, m1, n1, _, _, _, _, _, _, rfl⟩ := (mem_scripts _ _ _).1 hw1
    obtain ⟨g, _, m2, n2, _, _, _, rfl⟩ := (mem_copyFonts _ _).1 hw2
    simp only [List.cons.injEq, true_and] at he
    exact absurd he.1 (by decide)
  · -- html, images
    obtain ⟨f, _, m1, n1, _, _, _, hext, rfl⟩ := (mem_html _ _ _).1 hw1
    obtain ⟨g, _, m2, n2, _, _, _, himg, rfl⟩ := (mem_imageTaskFiles _ _ _ _).1 hw2
    simp only [List.cons.injEq, true_and] at he
    have hn : n1 = n2 := last_of_cons_append _ _ _ _ _ he.symm
    subst hn
    exact html_not_image n1 hext himg
  · -- html, copyScripts
    obtain ⟨f, hf, m1, n1, hp1, _, _, hext, rfl⟩ := (mem_html _ _ _).1 hw1
    obtain ⟨g, _, m2, n2, _, _, _, _, _, rfl⟩ := (mem_copyScripts _ _).1 hw2
    simp only [List.cons.injEq, true_and] at he
    have hn : n1 = n2 := last_of_cons_append _ _ _ _ _ he.symm
    subst hn
    rw [← he] at hp1
    exact h2 f hf (Or.inl (by rw [hp1]; rfl)) (by rw [hp1, getLast_two_dirs]; exact hext)
  · -- html, copyFonts
    obtain ⟨f, hf, m1, n1, hp1, _, _, hext, rfl⟩ := (mem_html _ _ _).1 hw1
    obtain ⟨g, _, m2, n2, _, _, _, rfl⟩ := (mem_copyFonts _ _).1 hw2
    simp only [List.cons.injEq, true_and] at he
    have hn : n1 = n2 := last_of_cons_append _ _ _ _ _ he.symm
    subst hn
    rw [← he] at hp1
    exact h2 f hf (Or.inr (by rw [hp1]; rfl)) (by rw [hp1, getLast_two_dirs]; exact hext)
  · -- images, copyScripts
    obtain ⟨f, _, m1, n1, _, _, _, _, rfl⟩ := (mem_imageTaskFiles _ _ _ _).1 hw1
    obtain ⟨g, _, m2, n2, _, _, _, _, _, rfl⟩ := (mem_copyScripts _ _).1 hw2
    simp only [List.cons.injEq, true_and] at he
    exact absurd he.1 (by decide)
  · -- images, copyFonts
    obtain ⟨f, _, m1, n1, _, _, _, _, rfl⟩ := (mem_imageTaskFiles _ _ _ _).1 hw1
    obtain ⟨g, _, m2, n2, _, _, _, rfl⟩ := (mem_copyFonts _ _).1 hw2
    simp only [List.cons.injEq, true_and] at he
    exact absurd he.1 (by decide)
  · -- copyScripts, copyFonts
    obtain ⟨f, _, m1, n1, _, _, _, _, _, rfl⟩ := (mem_copyScripts _ _).1 hw1
    obtain ⟨g, _, m2, n2, _, _, _, rfl⟩ := (mem_copyFonts _ _).1 hw2
    simp only [List.cons.injEq, true_and] at he
    exact absurd he.1 (by decide)

/-- The sample tree meets both conditions and the five tasks write pairwise
disjoint paths on it. -/
theorem concurrent_outputs_disjoint_witness :
    NoCopiedMinJs sampleTree
    ∧ NoHtmlAmongCopies sampleTree
    ∧ List.Pairwise List.Disjoint
      [[["dist".toList, "scripts".toList, "app.min.js".toList],
          ["dist".toList, "scripts".toList, "script.min.js".toList]],
        [["dist".toList, "index.html".toList]],
        [["dist".toList, "img".toList, "logo.png".toList]],
        [["dist".toList, "scripts".toList, "app.js".toList]],
        [["dist".toList, "fonts".toList, "text.woff".toList]]] := by
  refine ⟨by decide, by decide, ?_⟩
  have h := concurrent_outputs_disjoint false some id id sampleTree
    (by decide) (by decide)
  have e1 : outPaths (scripts some sampleTree) =
      [["dist".toList, "scripts".toList, "app.min.js".toList],
        ["dist".toList, "scripts".toList, "script.min.js".toList]] := by decide
  have e2 : outPaths (html id sampleTree) =
      [["dist".toList, "index.html".toList]] := by decide
  have e3 : outPaths (imageTaskFiles false id sampleTree) =
      [["dist".toList, "img".toList, "logo.png".toList]] := by decide
  have e4 : outPaths (copyScripts sampleTree) =
      [["dist".toList, "scripts".toList, "app.js".toList]] := by decide
  have e5 : outPaths (copyFonts sampleTree) =
      [["dist".toList, "fonts".toList, "text.woff".toList]] := by decide
  rw [e1, e2, e3, e4, e5] at h
  exact h

/-! ### `styles` -/

theorem gulpSrc_one_append (g : String) (hg : isNegated g = false) (t1 t2 : List SrcFile) :
    gulpSrc [g] (t1 ++ t2) = gulpSrc [g] t1 ++ gulpSrc [g] t2 := by
  simp [gulpSrc_one_eq _ hg, List.filterMap_append]

theorem extname_scss (name : Str) (hvis : visible name = true) (h : ".scss".toList <:+ name) :
    extname name = ".scss".toList := by
  obtain ⟨b, rfl⟩ := h
  cases b with
  | nil => simp [visible] at hvis
  | cons c b =>
    simp [visible] at hvis
    simp [extname, List.reverse_append, List.dropWhile, List.takeWhile, hvis]

theorem extname_css (b : Str) (hvis : visible (b ++ ".css".toList) = true) :
    extname (b ++ ".css".toList) = ".css".toList := by
  cases b with
  | nil => simp [visible] at hvis
  | cons c b =>
    simp [visible] at hvis
    simp [extname, List.reverse_append, List.dropWhile, List.takeWhile, hvis]

theorem parsePath_of_extname (mid : Path) (name e : Str) (he : extname name = e) :
    parsePath (mid ++ [name]) = ⟨mid, name.take (name.length - e.length), e⟩ := by
  simp [parsePath, he]

theorem parsePath_scss (mid : Path) (b : Str) (hvis : visible (b ++ ".scss".toList) = true) :
    parsePath (mid ++ [b ++ ".scss".toList]) = ⟨mid, b, ".scss".toList⟩ := by
  rw [parsePath_of_extname mid _ _ (extname_scss _ hvis ⟨b, rfl⟩)]
  simp

theorem parsePath_css (mid : Path) (b : Str) (hvis : visible (b ++ ".css".toList) = true) :
    parsePath (mid ++ [b ++ ".css".toList]) = ⟨mid, b, ".css".toList⟩ := by
  rw [parsePath_of_extname mid _ _ (extname_css _ hvis)]
  simp

theorem visible_css_of_scss (b : Str) (h : visible (b ++ ".scss".toList) = true) :
    visible (b ++ ".css".toList) = true := by
  cases b with
  | nil => simp [visible] at h
  | cons c b => simpa [visible] using h

theorem cssPaths_stylesOfCompiled (isProduction : Bool) (c : Vinyl) :
    cssPaths (stylesOfCompiled isProduction c) =
      ["dist".toList :: "css".toList :: c.relative,
        "dist".toList :: "css".toList :: suffixPath ".min" c.relative] := by
  cases isProduction <;>
    simp [stylesOfCompiled, destStyles, styleWrite, cssPaths, dir_css]

theorem cssPaths_append (a b : List StyleWrite) : cssPaths (a ++ b) = cssPaths a ++ cssPaths b := by
  simp [cssPaths, List.filterMap_append]

theorem sassStream_append (compile : Vinyl → Option Contents) (l1 l2 : List Vinyl)
    (hok : ∀ v ∈ l1, isPartial v.relative = false → (compile v).isSome = true) :
    sassStream compile (l1 ++ l2) = sassStream compile l1 ++ sassStream compile l2 := by
  induction l1 with
  | nil => rfl
  | cons v vs ih =>
    have ih2 := ih (fun u hu => hok u (List.mem_cons_of_mem _ hu))
    show sassStream compile (v :: (vs ++ l2)) = sassStream compile (v :: vs) ++ sassStream compile l2
    by_cases hp : isPartial v.relative = true
    · simp only [sassStream, hp, if_true]; exact ih2
    · have hp2 : isPartial v.relative = false := by simpa using hp
      have hv := hok v (List.mem_cons_self _ _) hp2
      obtain ⟨css, hcss⟩ := Option.isSome_iff_exists.1 hv
      simp only [sassStream, hp2, Bool.false_eq_true, if_false, hcss, List.cons_append, ih2]

theorem sassStream_skip_partial (compile : Vinyl → Option Contents) (l1 l2 : List Vinyl)
    (v : Vinyl) (hp : isPartial v.relative = true) :
    sassStream compile (l1 ++ v :: l2) = sassStream compile (l1 ++ l2) := by
  induction l1 with
  | nil => simp [sassStream, hp]
  | cons u us ih =>
    show sassStream compile (u :: (us ++ v :: l2)) = sassStream compile (u :: (us ++ l2))
    simp only [sassStream, ih]

theorem sassStream_stop (compile : Vinyl → Option Contents) (l1 l2 : List Vinyl)
    (v : Vinyl) (hp : isPartial v.relative = false) (hc : compile v = none) :
    sassStream compile (l1 ++ v :: l2) = sassStream compile l1 := by
  induction l1 with
  | nil => simp [sassStream, hp, hc]
  | cons u us ih =>
    show sassStream compile (u :: (us ++ v :: l2)) = sassStream compile (u :: us)
    simp only [sassStream, ih]

theorem gulpSrc_scss_single (f : SrcFile)
    (h : globMatch (parseGlob paths.src.scss.toList) f.path = true) :
    gulpSrc [paths.src.scss] [f] =
      [⟨["src".toList, "scss".toList], f.path.drop 2, f.contents⟩] := by
  rw [gulpSrc_one_eq _ (by decide)]
  simp only [List.filterMap_cons, List.filterMap_nil, h, if_true, base_scss]
  rfl

theorem gulpSrc_scss_split (pre post : List SrcFile) (f : SrcFile)
    (h : globMatch (parseGlob paths.src.scss.toList) f.path = true) :
    gulpSrc [paths.src.scss] (pre ++ f :: post) =
      gulpSrc [paths.src.scss] pre ++
        ⟨["src".toList, "scss".toList], f.path.drop 2, f.contents⟩ ::
          gulpSrc [paths.src.scss] post := by
  rw [gulpSrc_one_append _ (by decide), ← List.singleton_append (l := post),
    gulpSrc_one_append _ (by decide), gulpSrc_scss_single f h]
  rfl

theorem isPartial_drop (mid : Path) (name : Str) :
    isPartial (mid ++ [name]) = isPartial ("src".toList :: "scss".toList :: (mid ++ [name])) := by
  have h1 : (mid ++ [name]).getLast? = some name := List.getLast?_concat _
  have h2 : ("src".toList :: "scss".toList :: (mid ++ [name])).getLast? = some name := by
    have : "src".toList :: "scss".toList :: (mid ++ [name])
        = ("src".toList :: "scss".toList :: mid) ++ [name] := by simp
    rw [this, List.getLast?_concat]
  simp only [isPartial, h1, h2]
theorem isPartial_of_match (g : SrcFile)
    (h : globMatch (parseGlob paths.src.scss.toList) g.path = true) :
    isPartial (g.path.drop 2) = isPartial g.path := by
  obtain ⟨mid, name, hp, _, _, _⟩ := (scss_glob_iff _).1 h
  rw [hp]
  exact isPartial_drop mid name

theorem gulpSrc_scss_none (f : SrcFile)
    (h : globMatch (parseGlob paths.src.scss.toList) f.path = false) :
    gulpSrc [paths.src.scss] [f] = [] := by
  rw [gulpSrc_one_eq _ (by decide)]
  simp only [List.filterMap_cons, List.filterMap_nil, h, Bool.false_eq_true, if_false]

theorem sassStream_single (compile : Vinyl → Option Contents) (v : Vinyl) (css : Contents)
    (hp : isPartial v.relative = false) (hc : compile v = some css) :
    sassStream compile [v] =
      [{ v with relative := replaceExt v.relative ".css", contents := css }] := by
  simp [sassStream, hp, hc]

/-- C6 (as stated) fails: the partial `src/scss/_partial.scss` is matched by
the glob of `styles` and no stylesheet is written for it; and after a source
that does not compile, a later source is not written either. -/
theorem styles_skips_partials_and_stops :
    globMatch (parseGlob paths.src.scss.toList)
      ["src".toList, "scss".toList, "_partial.scss".toList] = true
    ∧ (∀ isProduction : Bool, cssPaths (styles isProduction (fun v => some v.contents)
        [⟨["src".toList, "scss".toList, "_partial.scss".toList], [1]⟩]) = [])
    ∧ globMatch (parseGlob paths.src.scss.toList)
      ["src".toList, "scss".toList, "style.scss".toList] = true
    ∧ (∀ isProduction : Bool, cssPaths (styles isProduction
        (fun v => if v.contents = [0] then none else some v.contents)
        [⟨["src".toList, "scss".toList, "bad.scss".toList], [0]⟩,
          ⟨["src".toList, "scss".toList, "style.scss".toList], [1]⟩]) = []) := by
  decide

/-- C6 (amended): for every stylesheet source matched by `src/scss/**/*.scss`
that is not a partial, when it and the sources read before it compile,
`styles` writes exactly two stylesheets for it under `dist/css/`: one under
the compiled name (`.css` for `.scss`) and one, in the same relative
directory, whose basename is that basename with `.min` appended; the two paths
are distinct.  A partial yields nothing, and after a source that does not
compile nothing more is written. -/
theorem styles_two_artifacts (isProduction : Bool) (compile : Vinyl → Option Contents)
    (pre post : List SrcFile) (f : SrcFile)
    (hsrc : globMatch (parseGlob paths.src.scss.toList) f.path = true)
    (hnp : isPartial f.path = false)
    (hok : ∀ g ∈ pre ++ [f], globMatch (parseGlob paths.src.scss.toList) g.path = true →
      isPartial g.path = false →
      (compile ⟨["src".toList, "scss".toList], g.path.drop 2, g.contents⟩).isSome = true) :
    (parsePath (f.path.drop 2)).extname = ".scss".toList
    ∧ cssPaths (styles isProduction compile (pre ++ f :: post)) =
        cssPaths (styles isProduction compile pre) ++
          ["dist".toList :: "css".toList :: ((parsePath (f.path.drop 2)).dirname ++
              [(parsePath (f.path.drop 2)).basename ++ ".css".toList]),
            "dist".toList :: "css".toList :: ((parsePath (f.path.drop 2)).dirname ++
              [(parsePath (f.path.drop 2)).basename ++ ".min".toList ++ ".css".toList])] ++
          cssPaths (styles isProduction compile post)
    ∧ "dist".toList :: "css".toList :: ((parsePath (f.path.drop 2)).dirname ++
          [(parsePath (f.path.drop 2)).basename ++ ".css".toList]) ≠
        "dist".toList :: "css".toList :: ((parsePath (f.path.drop 2)).dirname ++
          [(parsePath (f.path.drop 2)).basename ++ ".min".toList ++ ".css".toList])
    ∧ (∀ g : SrcFile, isPartial g.path = true →
        styles isProduction compile (pre ++ g :: post) =
          styles isProduction compile (pre ++ post))
    ∧ (∀ g : SrcFile, globMatch (parseGlob paths.src.scss.toList) g.path = true →
        isPartial g.path = false →
        compile ⟨["src".toList, "scss".toList], g.path.drop 2, g.contents⟩ = none →
        styles isProduction compile (pre ++ g :: post) = styles isProduction compile pre) := by
  obtain ⟨mid, name, hp, hmid, hvis, ⟨b, rfl⟩⟩ := (scss_glob_iff _).1 hsrc
  have hpp : parsePath (f.path.drop 2) = ⟨mid, b, ".scss".toList⟩ := by
    rw [hp]; exact parsePath_scss mid b hvis
  have hvc := visible_css_of_scss b hvis
  refine ⟨by rw [hpp], ?_, ?_, ?_, ?_⟩
  · -- the two stylesheets of `f`
    have hfok := hok f (by simp) hsrc hnp
    obtain ⟨css, hcss⟩ := Option.isSome_iff_exists.1 hfok
    have hokS : ∀ v ∈ gulpSrc [paths.src.scss] pre ++
        [⟨["src".toList, "scss".toList], f.path.drop 2, f.contents⟩],
        isPartial v.relative = false → (compile v).isSome = true := by
      intro v hv hpv
      rw [List.mem_append] at hv
      rcases hv with hv | hv
      · obtain ⟨g, hg, hgm, rfl⟩ := (mem_gulpSrc_one _ (by decide) _ _).1 hv
        rw [base_scss] at hpv ⊢
        exact hok g (by simp [hg]) hgm (by rw [← isPartial_of_match g hgm]; exact hpv)
      · obtain rfl : v = _ := by simpa using hv
        exact hfok
    have hokP : ∀ v ∈ gulpSrc [paths.src.scss] pre,
        isPartial v.relative = false → (compile v).isSome = true :=
      fun v hv => hokS v (List.mem_append_left _ hv)
    have hstream : sassStream compile (gulpSrc [paths.src.scss] (pre ++ f :: post)) =
        sassStream compile (gulpSrc [paths.src.scss] pre) ++
          ⟨["src".toList, "scss".toList], mid ++ [b ++ ".css".toList], css⟩ ::
            sassStream compile (gulpSrc [paths.src.scss] post) := by
      rw [gulpSrc_scss_split pre post f hsrc,
        ← List.singleton_append (l := gulpSrc [paths.src.scss] post), ← List.append_assoc,
        sassStream_append compile _ _ hokS, sassStream_append compile _ _ hokP,
        sassStream_single compile _ css (by rw [isPartial_of_match f hsrc]; exact hnp) hcss,
        List.append_assoc]
      simp only [List.singleton_append, replaceExt, hpp]
    simp only [styles, hstream, List.map_append, List.map_cons, List.flatten_append,
      List.flatten_cons, cssPaths_append, cssPaths_stylesOfCompiled, hpp, suffixPath,
      parsePath_css mid b hvc, List.append_assoc]
  · -- distinct
    rw [hpp]
    intro h
    simp only [List.cons.injEq, true_and] at h
    have h2 := (append_singleton_inj _ _ _ _ h).2
    have h3 := congrArg List.length h2
    simp at h3
  · -- partials
    intro g hg
    unfold styles
    congr 2
    rw [gulpSrc_one_append _ (by decide), ← List.singleton_append (l := post),
      gulpSrc_one_append _ (by decide), gulpSrc_one_append _ (by decide)]
    by_cases hm : globMatch (parseGlob paths.src.scss.toList) g.path = true
    · rw [gulpSrc_scss_single g hm]
      exact sassStream_skip_partial compile _ _ _ (by rw [isPartial_of_match g hm]; exact hg)
    · rw [gulpSrc_scss_none g (by simpa using hm)]
      rfl
  · -- compile errors
    intro g hm hg hc
    unfold styles
    congr 2
    rw [gulpSrc_scss_split pre post g hm]
    exact sassStream_stop compile _ _ _ (by rw [isPartial_of_match g hm]; exact hg) hc

/-- In a tree of a partial and two stylesheets that compile, `style.scss`
yields `dist/css/style.css` and `dist/css/style.min.css`. -/
theorem styles_two_artifacts_witness :
    cssPaths (styles false (fun v => some v.contents)
        [⟨["src".toList, "scss".toList, "_vars.scss".toList], [0]⟩,
          ⟨["src".toList, "scss".toList, "style.scss".toList], [1]⟩,
          ⟨["src".toList, "scss".toList, "pages".toList, "home.scss".toList], [2]⟩]) =
      [["dist".toList, "css".toList, "style.css".toList],
        ["dist".toList, "css".toList, "style.min.css".toList],
        ["dist".toList, "css".toList, "pages".toList, "home.css".toList],
        ["dist".toList, "css".toList, "pages".toList, "home.min.css".toList]] := by
  have h := (styles_two_artifacts false (fun v => some v.contents)
    [⟨["src".toList, "scss".toList, "_vars.scss".toList], [0]⟩]
    [⟨["src".toList, "scss".toList, "pages".toList, "home.scss".toList], [2]⟩]
    ⟨["src".toList, "scss".toList, "style.scss".toList], [1]⟩
    (by decide) (by decide) (by intro g _ _ _; rfl)).2.1
  rw [show ([⟨["src".toList, "scss".toList, "_vars.scss".toList], [0]⟩,
        ⟨["src".toList, "scss".toList, "style.scss".toList], [1]⟩,
        ⟨["src".toList, "scss".toList, "pages".toList, "home.scss".toList], [2]⟩] :
        List SrcFile) =
      [⟨["src".toList, "scss".toList, "_vars.scss".toList], [0]⟩] ++
        ⟨["src".toList, "scss".toList, "style.scss".toList], [1]⟩ ::
        [⟨["src".toList, "scss".toList, "pages".toList, "home.scss".toList], [2]⟩] from rfl, h]
  decide

end Gulpfile
